import Mathlib

/-
  Verification of the geometric-alignment / statistics core of
  `src/ActiveShapeModel.py` (classes ReferentModel, VarianceModel, Sampler).

  Shallow embedding conventions:
  * A landmark shape (the `DataCollector` of the external `DataManipulations`
    module, which is not part of `src/`) is a `Shape`: a list of (y, x)
    coordinate pairs, together with the cumulative `scale_factor` and the
    retained absolute offset (the centroid removed by `translate_to_origin`).
    All `DataCollector` / `utils` operations are modelled from the spec and are
    marked as such in their doc comments.
  * Python floats are embedded as real numbers for the Procrustes pipeline
    (whose mathematics needs square roots) and as rationals for the
    VarianceModel and Sampler code, which is closed under field operations.
  * Divisions that Python cannot perform (division by zero, NaN-producing
    normalizations) are made explicit: the corresponding operations return
    `Except`/`Option` values.
  * The unbounded `while` loop of `ReferentModel.align` is embedded with an
    explicit fuel argument; exhausting the fuel yields `AlignErr.fuelExhausted`,
    so a run of the Python loop that terminates corresponds to a fuel value for
    which the embedded function returns `.ok`.
-/

namespace ASM

/-! ### Shapes (DataManipulations.DataCollector, modelled from the spec) -/

/-- A landmark shape: ordered (y, x) points, the multiplicatively accumulated
`scale_factor`, and the absolute offset retained by `translate_to_origin` so
that `realign_to_absolute` can restore image coordinates. -/
structure Shape where
  points : List (ℝ × ℝ)
  scale_factor : ℝ
  offset : ℝ × ℝ

/-- Sum of the first (y) coordinates of a point list. -/
def sumY (ps : List (ℝ × ℝ)) : ℝ := (ps.map Prod.fst).sum

/-- Sum of the second (x) coordinates of a point list. -/
def sumX (ps : List (ℝ × ℝ)) : ℝ := (ps.map Prod.snd).sum

/-- Centroid (mean point) of a point list; `(0, 0)` for the empty list. -/
noncomputable def centroid (ps : List (ℝ × ℝ)) : ℝ × ℝ :=
  (sumY ps / ps.length, sumX ps / ps.length)

/-- Sum of squared point norms (squared Frobenius norm of the point matrix). -/
def frobSq (ps : List (ℝ × ℝ)) : ℝ :=
  (ps.map (fun p => p.1 ^ 2 + p.2 ^ 2)).sum

/-- Modelled from the spec: `DataCollector.read_vector` builds a shape from a
flat `[y0, x0, y1, x1, ...]` vector, with fresh scale factor 1 and no offset. -/
def pairUp : List ℝ → List (ℝ × ℝ)
  | y :: x :: rest => (y, x) :: pairUp rest
  | _ => []

/-- Modelled from the spec: a `DataCollector` freshly created from a flat
coordinate vector. -/
def read_vector (v : List ℝ) : Shape :=
  { points := pairUp v, scale_factor := 1, offset := (0, 0) }

/-- Modelled from the spec: `read_vector` invoked on an existing collector
replaces the point coordinates, keeping the accumulated state. -/
def set_vector (s : Shape) (v : List ℝ) : Shape :=
  { s with points := pairUp v }

/-- Modelled from the spec: `DataCollector.as_vector`, the flat
`[y0, x0, y1, x1, ...]` view of the points. -/
def as_vector (s : Shape) : List ℝ :=
  (s.points.map (fun p => [p.1, p.2])).flatten

/-- Modelled from the spec: `translate_to_origin` subtracts the centroid from
every point and retains it in the absolute offset. -/
noncomputable def translate_to_origin (s : Shape) : Shape :=
  let c := centroid s.points
  { points := s.points.map (fun p => (p.1 - c.1, p.2 - c.2)),
    scale_factor := s.scale_factor,
    offset := (s.offset.1 + c.1, s.offset.2 + c.2) }

/-- Errors of the embedded `ReferentModel.align`. `fuelExhausted` marks a run
of the (uncapped) Python loop that has not terminated within the given fuel;
`divByZero` marks a normalization whose divisor is zero (a NaN cascade in the
float code); `indexError` is Python's error for `points[0]` on an empty list. -/
inductive AlignErr
  | fuelExhausted
  | divByZero
  | indexError
deriving DecidableEq

/-- Modelled from the spec: `scale_to_unit` divides every coordinate by the
Frobenius norm (so that the sum of squared point norms becomes 1) and
multiplies the cumulative scale factor by the inverse of the applied scale.
Division by a zero norm is the float code's NaN cascade, made explicit. -/
noncomputable def scale_to_unit (s : Shape) : Except AlignErr Shape :=
  let n := Real.sqrt (frobSq s.points)
  if n = 0 then .error .divByZero
  else .ok { points := s.points.map (fun p => (p.1 / n, p.2 / n)),
             scale_factor := s.scale_factor * n,
             offset := s.offset }

/-- Modelled from the spec: `rotate` applies a rotation about the origin.  The
code passes an angle; here the rotation is carried as its `(cos, sin)` pair,
which is the same 2x2 rotation matrix. -/
noncomputable def rotate (cs : ℝ × ℝ) (s : Shape) : Shape :=
  { s with points := s.points.map (fun p => (cs.1 * p.1 - cs.2 * p.2, cs.2 * p.1 + cs.1 * p.2)) }

/-- Modelled from the spec: `utils.rotation_alignment m s` returns the
least-squares optimal rotation aligning shape `s` to the mean `m`, via the
standard closed form from the cross-covariance sums.  The returned value is
the `(cos, sin)` pair of the optimal angle `atan2 B A`; when both sums vanish
the angle is 0 (`numpy.arctan2 0 0 = 0`). -/
noncomputable def rotation_alignment (m s : Shape) : ℝ × ℝ :=
  let A := (List.zipWith (fun p q => p.1 * q.1 + p.2 * q.2) m.points s.points).sum
  let B := (List.zipWith (fun p q => p.1 * q.2 - p.2 * q.1) m.points s.points).sum
  let r := Real.sqrt (A ^ 2 + B ^ 2)
  if r = 0 then (1, 0) else (A / r, B / r)

/-- Modelled from the spec: `check_distance` is the diagnostic deviation of a
shape from the unit-scale invariant. -/
noncomputable def check_distance (s : Shape) : ℝ := frobSq s.points - 1

/-- Modelled from the spec: the convergence threshold of `utils.is_converged`
(a fixed small constant). -/
noncomputable def convergence_eps : ℝ := 1 / 100000000

/-- Modelled from the spec: the sum of squared coordinate differences used by
`utils.is_converged`. -/
noncomputable def ssd (a b : Shape) : ℝ :=
  (List.zipWith (fun p q => (p.1 - q.1) ^ 2 + (p.2 - q.2) ^ 2) a.points b.points).sum

/-- Modelled from the spec: `read_points(zeros_like(...))`, a zero shape with
the same number of points. -/
def zeros_of (s : Shape) : Shape :=
  { points := s.points.map (fun _ => ((0 : ℝ), (0 : ℝ))),
    scale_factor := 1, offset := (0, 0) }

/-! ### ReferentModel (src/ActiveShapeModel.py lines 14-181) -/

/-- Componentwise sum of a list of equal-length vectors (`numpy` column sums,
as used by `np.mean(..., axis=0)`). -/
def sum_vectors {α : Type} [Add α] : List (List α) → List α
  | [] => []
  | [v] => v
  | v :: vs => List.zipWith (· + ·) v (sum_vectors vs)

/-- Method `ReferentModel.mean_model` on a collection: the coordinate-wise arithmetic
mean of the shape vectors (lines 26-35). -/
noncomputable def mean_vector (shapes : List Shape) : List ℝ :=
  (sum_vectors (shapes.map as_vector)).map (· / (shapes.length : ℝ))

/-- The per-shape realignment step of each Procrustes iteration
(lines 139-146): rotate the shape to the current mean, then re-center it when
`check_distance() != 0.1`. -/
noncomputable def rot_step (m s : Shape) : Shape :=
  let s1 := rotate (rotation_alignment m s) s
  if check_distance s1 ≠ 1 / 10 then translate_to_origin s1 else s1

/-- One iteration of the Procrustes loop body (lines 127-146): recompute the
mean shape from the current collection, re-center and re-normalize it, and
realign every shape with the new mean. -/
noncomputable def loop_body (mean : Shape) (shapes : List Shape) :
    Except AlignErr (Shape × List Shape) :=
  let m1 := translate_to_origin (set_vector mean (mean_vector shapes))
  match scale_to_unit m1 with
  | .error e => .error e
  | .ok m2 => .ok (m2, shapes.map (rot_step m2))

/-- The convergence loop of `align` (line 126), with explicit fuel standing in
for the absent iteration cap. -/
noncomputable def loop_go : ℕ → Shape → Shape → List Shape →
    Except AlignErr (Shape × List Shape)
  | 0, old, mean, shapes =>
      if ssd old mean < convergence_eps then .ok (mean, shapes)
      else .error .fuelExhausted
  | fuel + 1, old, mean, shapes =>
      if ssd old mean < convergence_eps then .ok (mean, shapes)
      else
        match loop_body mean shapes with
        | .error e => .error e
        | .ok (m2, sh2) => loop_go fuel mean m2 sh2

/-- A `mapM` for `Except`, written out so that its equations are plain. -/
def mapExcept {ε α β : Type} (f : α → Except ε β) : List α → Except ε (List β)
  | [] => .ok []
  | a :: l =>
    match f a with
    | .error e => .error e
    | .ok b =>
      match mapExcept f l with
      | .error e => .error e
      | .ok l' => .ok (b :: l')

/-- The state held by a `ReferentModel` after `align`: the aligned collection
and the mean shape. -/
structure RefState where
  shapes : List Shape
  mean : Shape

/-- Method `ReferentModel.align` (lines 103-152): convert the landmark matrix to a
collection, center and unit-scale every shape, then iterate the Procrustes
loop from a copy of the first shape until the mean converges; finally store
the arithmetic mean of the per-shape scale factors on the mean shape. -/
noncomputable def align (fuel : ℕ) (matrix : List (List ℝ)) :
    Except AlignErr RefState :=
  let coll1 := (matrix.map read_vector).map translate_to_origin
  match mapExcept scale_to_unit coll1 with
  | .error e => .error e
  | .ok coll2 =>
    match coll2 with
    | [] => .error .indexError
    | s0 :: rest =>
      match loop_go fuel (zeros_of s0) s0 (s0 :: rest) with
      | .error e => .error e
      | .ok (meanF, shapesF) =>
        .ok { shapes := shapesF,
              mean := { meanF with
                scale_factor :=
                  (shapesF.map Shape.scale_factor).sum / (shapesF.length : ℝ) } }

/-- Method `ReferentModel.retrieve_as_matrix` (lines 163-167). -/
def retrieve_as_matrix (st : RefState) : List (List ℝ) :=
  st.shapes.map as_vector

/-- Method `ReferentModel.retrieve_mean_model` (lines 154-161). -/
def retrieve_mean_model (st : RefState) : Shape := st.mean

/-- Modelled from the spec: `rescale_with_factor` multiplies every coordinate
by the externally supplied factor. -/
def rescale_with_factor (f : ℝ) (s : Shape) : Shape :=
  { s with points := s.points.map (fun p => (f * p.1, f * p.2)) }

/-- Modelled from the spec: `realign_to_absolute` adds back the retained
absolute offset. -/
def realign_to_absolute (s : Shape) : Shape :=
  { s with points := s.points.map (fun p => (p.1 + s.offset.1, p.2 + s.offset.2)) }

/-- Modelled from the spec: `rescale` undoes the unit normalization with the
shape's own scale factor. -/
def shape_rescale (s : Shape) : Shape := rescale_with_factor s.scale_factor s

/-- Method `ReferentModel.rescale_and_realign` (lines 169-181): every shape is
rescaled by the mean scale factor and translated back to absolute
coordinates; the mean shape is rescaled with its own (mean) factor. -/
def rescale_and_realign (st : RefState) : RefState :=
  { shapes := st.shapes.map
      (fun s => realign_to_absolute (rescale_with_factor st.mean.scale_factor s)),
    mean := realign_to_absolute (shape_rescale st.mean) }

/-! ### Coordinate-sum lemmas -/

lemma sumY_nil : sumY [] = 0 := rfl

lemma sumX_nil : sumX [] = 0 := rfl

lemma sumY_cons (p : ℝ × ℝ) (t : List (ℝ × ℝ)) : sumY (p :: t) = p.1 + sumY t := by
  simp [sumY]

lemma sumX_cons (p : ℝ × ℝ) (t : List (ℝ × ℝ)) : sumX (p :: t) = p.2 + sumX t := by
  simp [sumX]

lemma sumY_sub_const (l : List (ℝ × ℝ)) (c1 c2 : ℝ) :
    sumY (l.map (fun p => (p.1 - c1, p.2 - c2))) = sumY l - l.length * c1 := by
  induction l with
  | nil => simp [sumY]
  | cons p t ih => simp [sumY_cons, ih]; ring

lemma sumX_sub_const (l : List (ℝ × ℝ)) (c1 c2 : ℝ) :
    sumX (l.map (fun p => (p.1 - c1, p.2 - c2))) = sumX l - l.length * c2 := by
  induction l with
  | nil => simp [sumX]
  | cons p t ih => simp [sumX_cons, ih]; ring

lemma sumY_div (l : List (ℝ × ℝ)) (n : ℝ) :
    sumY (l.map (fun p => (p.1 / n, p.2 / n))) = sumY l / n := by
  induction l with
  | nil => simp [sumY]
  | cons p t ih => simp [sumY_cons, ih]; ring

lemma sumX_div (l : List (ℝ × ℝ)) (n : ℝ) :
    sumX (l.map (fun p => (p.1 / n, p.2 / n))) = sumX l / n := by
  induction l with
  | nil => simp [sumX]
  | cons p t ih => simp [sumX_cons, ih]; ring

lemma sumY_rot (l : List (ℝ × ℝ)) (c s : ℝ) :
    sumY (l.map (fun p => (c * p.1 - s * p.2, s * p.1 + c * p.2)))
      = c * sumY l - s * sumX l := by
  induction l with
  | nil => simp [sumY, sumX]
  | cons p t ih => simp [sumY_cons, sumX_cons, ih]; ring

lemma sumX_rot (l : List (ℝ × ℝ)) (c s : ℝ) :
    sumX (l.map (fun p => (c * p.1 - s * p.2, s * p.1 + c * p.2)))
      = s * sumY l + c * sumX l := by
  induction l with
  | nil => simp [sumY, sumX]
  | cons p t ih => simp [sumY_cons, sumX_cons, ih]; ring

lemma frobSq_nil : frobSq [] = 0 := rfl

lemma frobSq_cons (p : ℝ × ℝ) (t : List (ℝ × ℝ)) :
    frobSq (p :: t) = p.1 ^ 2 + p.2 ^ 2 + frobSq t := by
  simp [frobSq]

lemma frobSq_nonneg (l : List (ℝ × ℝ)) : 0 ≤ frobSq l := by
  induction l with
  | nil => simp [frobSq_nil]
  | cons p t ih => rw [frobSq_cons]; positivity

lemma frobSq_div (l : List (ℝ × ℝ)) (n : ℝ) :
    frobSq (l.map (fun p => (p.1 / n, p.2 / n))) = frobSq l / n ^ 2 := by
  induction l with
  | nil => simp [frobSq]
  | cons p t ih => simp [frobSq_cons, ih]; ring

lemma frobSq_rot (l : List (ℝ × ℝ)) (c s : ℝ) :
    frobSq (l.map (fun p => (c * p.1 - s * p.2, s * p.1 + c * p.2)))
      = (c ^ 2 + s ^ 2) * frobSq l := by
  induction l with
  | nil => simp [frobSq]
  | cons p t ih => simp [frobSq_cons, ih]; ring

/-! ### Properties of the shape operations -/

lemma centroid_nil : centroid [] = (0, 0) := by
  simp [centroid, sumY, sumX]

lemma centroid_eq_zero_iff (l : List (ℝ × ℝ)) (hl : l ≠ []) :
    centroid l = (0, 0) ↔ sumY l = 0 ∧ sumX l = 0 := by
  have hn : (l.length : ℝ) ≠ 0 :=
    Nat.cast_ne_zero.mpr (List.length_pos.mpr hl).ne'
  simp [centroid, Prod.ext_iff, div_eq_zero_iff, hn]

lemma centroid_translate (s : Shape) :
    centroid (translate_to_origin s).points = (0, 0) := by
  rcases s with ⟨l, sf, off⟩
  rcases l with _ | ⟨p, t⟩
  · simp [translate_to_origin, centroid_nil, centroid, sumY, sumX]
  · rw [translate_to_origin]
    rw [centroid_eq_zero_iff _ (by simp)]
    constructor
    · rw [sumY_sub_const]
      simp only [centroid]
      field_simp
    · rw [sumX_sub_const]
      simp only [centroid]
      field_simp

lemma translate_of_centered (s : Shape) (h : centroid s.points = (0, 0)) :
    translate_to_origin s = s := by
  rcases s with ⟨l, sf, off⟩
  simp only [translate_to_origin] at *
  simp only [h]
  simp

lemma translate_points (s : Shape) :
    (translate_to_origin s).points
      = s.points.map (fun p => (p.1 - (centroid s.points).1, p.2 - (centroid s.points).2)) := rfl

lemma translate_factor (s : Shape) :
    (translate_to_origin s).scale_factor = s.scale_factor := rfl

lemma scale_to_unit_ok {s s' : Shape} (h : scale_to_unit s = .ok s') :
    frobSq s.points ≠ 0 ∧
    s'.points = s.points.map
      (fun p => (p.1 / Real.sqrt (frobSq s.points), p.2 / Real.sqrt (frobSq s.points))) ∧
    s'.scale_factor = s.scale_factor * Real.sqrt (frobSq s.points) ∧
    s'.offset = s.offset := by
  by_cases hn : Real.sqrt (frobSq s.points) = 0
  · simp [scale_to_unit, hn] at h
  · have hfr : frobSq s.points ≠ 0 := by
      intro h0
      exact hn (by rw [h0, Real.sqrt_zero])
    simp only [scale_to_unit, if_neg hn] at h
    injection h with h
    subst h
    exact ⟨hfr, rfl, rfl, rfl⟩

lemma frobSq_scale_ok {s s' : Shape} (h : scale_to_unit s = .ok s') :
    frobSq s'.points = 1 := by
  obtain ⟨hfr, hp, -, -⟩ := scale_to_unit_ok h
  rw [hp, frobSq_div, Real.sq_sqrt (frobSq_nonneg _), div_self hfr]

lemma centroid_scale_ok {s s' : Shape} (h : scale_to_unit s = .ok s')
    (hc : centroid s.points = (0, 0)) : centroid s'.points = (0, 0) := by
  obtain ⟨-, hp, -, -⟩ := scale_to_unit_ok h
  rcases hl : s.points with _ | ⟨p, t⟩
  · rw [hp, hl]
    exact centroid_nil
  · rw [hl] at hc
    rw [centroid_eq_zero_iff _ (by simp)] at hc
    rw [hp, hl, centroid_eq_zero_iff _ (by simp), sumY_div, sumX_div, hc.1, hc.2]
    simp

lemma rotation_alignment_unit (m s : Shape) :
    (rotation_alignment m s).1 ^ 2 + (rotation_alignment m s).2 ^ 2 = 1 := by
  rw [rotation_alignment]
  set A := (List.zipWith (fun p q => p.1 * q.1 + p.2 * q.2) m.points s.points).sum with hA
  set B := (List.zipWith (fun p q => p.1 * q.2 - p.2 * q.1) m.points s.points).sum with hB
  by_cases hr : Real.sqrt (A ^ 2 + B ^ 2) = 0
  · simp [hr]
  · have hab : A ^ 2 + B ^ 2 ≠ 0 := by
      intro h0
      exact hr (by rw [h0, Real.sqrt_zero])
    have hsq : Real.sqrt (A ^ 2 + B ^ 2) ^ 2 = A ^ 2 + B ^ 2 :=
      Real.sq_sqrt (by positivity)
    simp only [if_neg hr]
    rw [div_pow, div_pow, div_add_div_same, hsq, div_self hab]

lemma rotate_points (cs : ℝ × ℝ) (s : Shape) :
    (rotate cs s).points
      = s.points.map (fun p => (cs.1 * p.1 - cs.2 * p.2, cs.2 * p.1 + cs.1 * p.2)) := rfl

lemma rotate_factor (cs : ℝ × ℝ) (s : Shape) :
    (rotate cs s).scale_factor = s.scale_factor := rfl

lemma centroid_rotate (cs : ℝ × ℝ) (s : Shape) (hc : centroid s.points = (0, 0)) :
    centroid (rotate cs s).points = (0, 0) := by
  rcases hl : s.points with _ | ⟨p, t⟩
  · rw [rotate_points, hl]
    exact centroid_nil
  · rw [hl] at hc
    rw [centroid_eq_zero_iff _ (by simp)] at hc
    rw [rotate_points, hl, centroid_eq_zero_iff _ (by simp), sumY_rot, sumX_rot,
      hc.1, hc.2]
    simp

lemma frobSq_rotate_unit (m s : Shape) :
    frobSq (rotate (rotation_alignment m s) s).points = frobSq s.points := by
  rw [rotate_points, frobSq_rot, rotation_alignment_unit, one_mul]

lemma rot_step_eq (m s : Shape) (hc : centroid s.points = (0, 0)) :
    rot_step m s = rotate (rotation_alignment m s) s := by
  have hc1 : centroid (rotate (rotation_alignment m s) s).points = (0, 0) :=
    centroid_rotate _ _ hc
  rw [rot_step]
  split_ifs with h
  · exact translate_of_centered _ hc1
  · rfl

lemma rot_step_inv (m s : Shape) (hc : centroid s.points = (0, 0))
    (h1 : frobSq s.points = 1) :
    centroid (rot_step m s).points = (0, 0) ∧ frobSq (rot_step m s).points = 1 ∧
    (rot_step m s).scale_factor = s.scale_factor := by
  rw [rot_step_eq m s hc]
  exact ⟨centroid_rotate _ _ hc, by rw [frobSq_rotate_unit, h1], rotate_factor _ _⟩

lemma rot_step_factor (m s : Shape) :
    (rot_step m s).scale_factor = s.scale_factor := by
  rw [rot_step]
  split_ifs
  · rw [translate_factor, rotate_factor]
  · rw [rotate_factor]

/-! ### The Procrustes loop invariant -/

/-- The alignment invariant: a shape is centered at the origin and has unit
Frobenius scale. -/
def Aligned (s : Shape) : Prop :=
  centroid s.points = (0, 0) ∧ frobSq s.points = 1

lemma loop_body_ok {mean m2 : Shape} {shapes sh2 : List Shape}
    (h : loop_body mean shapes = .ok (m2, sh2)) :
    Aligned m2 ∧ sh2 = shapes.map (rot_step m2) := by
  rw [loop_body] at h
  rcases hs : scale_to_unit (translate_to_origin (set_vector mean (mean_vector shapes))) with e | m2'
  · rw [hs] at h
    cases h
  · rw [hs] at h
    injection h with h
    injection h with h1 h2
    subst h1
    subst h2
    refine ⟨⟨centroid_scale_ok hs (centroid_translate _), frobSq_scale_ok hs⟩, rfl⟩

lemma loop_go_inv :
    ∀ (fuel : ℕ) (old mean : Shape) (shapes : List Shape) (mF : Shape)
      (shF : List Shape),
      loop_go fuel old mean shapes = .ok (mF, shF) →
      (∀ s ∈ shapes, Aligned s) → Aligned mean →
      (∀ s ∈ shF, Aligned s) ∧ Aligned mF ∧
      shF.map Shape.scale_factor = shapes.map Shape.scale_factor ∧
      shF.length = shapes.length := by
  intro fuel
  induction fuel with
  | zero =>
    intro old mean shapes mF shF h hsh hm
    rw [loop_go] at h
    split_ifs at h
    injection h with h
    injection h with h1 h2
    subst h1; subst h2
    exact ⟨hsh, hm, rfl, rfl⟩
  | succ f ih =>
    intro old mean shapes mF shF h hsh hm
    rw [loop_go] at h
    split_ifs at h with hconv
    · injection h with h
      injection h with h1 h2
      subst h1; subst h2
      exact ⟨hsh, hm, rfl, rfl⟩
    · rcases hb : loop_body mean shapes with e | p
      · rw [hb] at h
        cases h
      · rcases p with ⟨m2, sh2⟩
        rw [hb] at h
        obtain ⟨hm2, hsh2⟩ := loop_body_ok hb
        have hsh2' : ∀ s ∈ sh2, Aligned s := by
          intro s hs
          rw [hsh2] at hs
          obtain ⟨a, ha, rfl⟩ := List.mem_map.mp hs
          obtain ⟨hca, hfa⟩ := hsh a ha
          obtain ⟨h1, h2, -⟩ := rot_step_inv m2 a hca hfa
          exact ⟨h1, h2⟩
        obtain ⟨g1, g2, g3, g4⟩ := ih mean m2 sh2 mF shF h hsh2' hm2
        refine ⟨g1, g2, ?_, ?_⟩
        · rw [g3, hsh2, List.map_map]
          congr 1
          funext a
          exact rot_step_factor m2 a
        · rw [g4, hsh2, List.length_map]

/-! ### mapExcept lemmas -/

lemma mapExcept_length {ε α β : Type} {f : α → Except ε β} :
    ∀ {l : List α} {l' : List β}, mapExcept f l = .ok l' → l'.length = l.length := by
  intro l
  induction l with
  | nil =>
    intro l' h
    rw [mapExcept] at h
    injection h with h
    subst h
    rfl
  | cons a t ih =>
    intro l' h
    rw [mapExcept] at h
    rcases hfa : f a with e | b
    · rw [hfa] at h; cases h
    · rw [hfa] at h
      rcases ht : mapExcept f t with e | t'
      · rw [ht] at h; cases h
      · rw [ht] at h
        injection h with h
        subst h
        simpa using ih ht

lemma mapExcept_mem {ε α β : Type} {f : α → Except ε β} :
    ∀ {l : List α} {l' : List β}, mapExcept f l = .ok l' →
      ∀ b ∈ l', ∃ a ∈ l, f a = .ok b := by
  intro l
  induction l with
  | nil =>
    intro l' h
    rw [mapExcept] at h
    injection h with h
    subst h
    intro b hb
    cases hb
  | cons a t ih =>
    intro l' h
    rw [mapExcept] at h
    rcases hfa : f a with e | b0
    · rw [hfa] at h; cases h
    · rw [hfa] at h
      rcases ht : mapExcept f t with e | t'
      · rw [ht] at h; cases h
      · rw [ht] at h
        injection h with h
        subst h
        intro b hb
        rcases List.mem_cons.mp hb with hb | hb
        · exact ⟨a, List.mem_cons_self a t, by rw [hfa, hb]⟩
        · obtain ⟨a', ha', hfa'⟩ := ih ht b hb
          exact ⟨a', List.mem_cons_of_mem a ha', hfa'⟩

lemma mapExcept_map_comm {ε α β : Type} {f : α → Except ε β} {g : β → ℝ}
    {g' : α → ℝ} (hp : ∀ a b, f a = .ok b → g b = g' a) :
    ∀ {l : List α} {l' : List β}, mapExcept f l = .ok l' → l'.map g = l.map g' := by
  intro l
  induction l with
  | nil =>
    intro l' h
    rw [mapExcept] at h
    injection h with h
    subst h
    rfl
  | cons a t ih =>
    intro l' h
    rw [mapExcept] at h
    rcases hfa : f a with e | b
    · rw [hfa] at h; cases h
    · rw [hfa] at h
      rcases ht : mapExcept f t with e | t'
      · rw [ht] at h; cases h
      · rw [ht] at h
        injection h with h
        subst h
        simp only [List.map_cons]
        rw [hp a b hfa, ih ht]

lemma mapExcept_get {ε α β : Type} {f : α → Except ε β} :
    ∀ {l : List α} {l' : List β}, mapExcept f l = .ok l' →
      ∀ (i : ℕ) (a : α), l.get? i = some a →
        ∃ b, f a = .ok b ∧ l'.get? i = some b := by
  intro l
  induction l with
  | nil =>
    intro l' h i a ha
    cases ha
  | cons a0 t ih =>
    intro l' h i a ha
    rw [mapExcept] at h
    rcases hfa : f a0 with e | b0
    · rw [hfa] at h; cases h
    · rw [hfa] at h
      rcases ht : mapExcept f t with e | t'
      · rw [ht] at h; cases h
      · rw [ht] at h
        injection h with h
        subst h
        cases i with
        | zero =>
          injection ha with ha
          subst ha
          exact ⟨b0, hfa, rfl⟩
        | succ j =>
          exact ih ht j a ha

/-! ### Destructing a successful align run -/

lemma align_ok_elim {fuel : ℕ} {M : List (List ℝ)} {st : RefState}
    (h : align fuel M = .ok st) :
    ∃ (coll2 : List Shape) (s0 : Shape) (rest : List Shape) (mF : Shape),
      mapExcept scale_to_unit ((M.map read_vector).map translate_to_origin) = .ok coll2 ∧
      coll2 = s0 :: rest ∧
      loop_go fuel (zeros_of s0) s0 coll2 = .ok (mF, st.shapes) ∧
      st.mean = { mF with scale_factor :=
        (st.shapes.map Shape.scale_factor).sum / (st.shapes.length : ℝ) } := by
  simp only [align] at h
  split at h
  · cases h
  · rename_i coll2 hme
    split at h
    · cases h
    · rename_i s0 rest
      split at h
      · cases h
      · rename_i mF shF hlg
        injection h with h
        subst h
        exact ⟨s0 :: rest, s0, rest, mF, hme, rfl, hlg, rfl⟩

/-- Claim C1: after a terminating run of `ReferentModel.align`, every shape of
the collection and the mean shape are centered at the origin with unit
Frobenius scale, and the mean shape's `scale_factor` is the arithmetic mean of
the original (centered) shape magnitudes. -/
theorem c1_align_result (fuel : ℕ) (M : List (List ℝ)) (st : RefState)
    (h : align fuel M = .ok st) :
    (∀ s ∈ st.shapes, centroid s.points = (0, 0) ∧ frobSq s.points = 1) ∧
    centroid st.mean.points = (0, 0) ∧ frobSq st.mean.points = 1 ∧
    st.mean.scale_factor =
      (M.map (fun row =>
        Real.sqrt (frobSq (translate_to_origin (read_vector row)).points))).sum
        / (M.length : ℝ) := by
  obtain ⟨coll2, s0, rest, mF, hme, hcoll, hlg, hmean⟩ := align_ok_elim h
  have hcoll2A : ∀ s' ∈ coll2, Aligned s' := by
    intro s' hs'
    obtain ⟨a, ha, hfa⟩ := mapExcept_mem hme s' hs'
    obtain ⟨a0, -, rfl⟩ := List.mem_map.mp ha
    exact ⟨centroid_scale_ok hfa (centroid_translate _), frobSq_scale_ok hfa⟩
  have hs0 : Aligned s0 := hcoll2A s0 (by rw [hcoll]; exact List.mem_cons_self s0 rest)
  rw [hcoll] at hlg
  obtain ⟨g1, g2, g3, g4⟩ :=
    loop_go_inv fuel (zeros_of s0) s0 (s0 :: rest) mF st.shapes hlg
      (by intro s hs; exact hcoll2A s (by rw [hcoll]; exact hs)) hs0
  have hmp : st.mean.points = mF.points := by rw [hmean]
  have hlen : st.shapes.length = M.length := by
    rw [g4, ← hcoll, mapExcept_length hme]
    simp
  have hfac : st.shapes.map Shape.scale_factor
      = M.map (fun row =>
          Real.sqrt (frobSq (translate_to_origin (read_vector row)).points)) := by
    rw [g3, ← hcoll]
    have hcomm := @mapExcept_map_comm AlignErr Shape Shape scale_to_unit
      Shape.scale_factor (fun a => a.scale_factor * Real.sqrt (frobSq a.points))
      (fun a b hab => (scale_to_unit_ok hab).2.2.1) _ _ hme
    rw [hcomm, List.map_map, List.map_map]
    refine List.map_congr_left ?_
    intro row _
    have h1 : (translate_to_origin (read_vector row)).scale_factor = 1 := rfl
    simp only [Function.comp_apply]
    rw [h1, one_mul]
  refine ⟨fun s hs => g1 s hs, ?_, ?_, ?_⟩
  · rw [hmp]; exact g2.1
  · rw [hmp]; exact g2.2
  · rw [hmean]
    simp only []
    rw [hfac, hlen]

/-! ### Concrete terminating runs of align

`sGen o` is a two-landmark shape that is already centered with unit Frobenius
scale (and an arbitrary retained offset `o`), so the whole pipeline fixes it
and the Procrustes loop converges after one iteration. -/

noncomputable def sGen (o : ℝ × ℝ) : Shape :=
  { points := [(1 / 2, 1 / 2), (-(1 / 2), -(1 / 2))], scale_factor := 1, offset := o }

noncomputable def mOne : List (List ℝ) :=
  [[1 / 2, 1 / 2, -(1 / 2), -(1 / 2)]]

noncomputable def mThree : List (List ℝ) :=
  [[7 / 2, 1 / 2, 5 / 2, -(1 / 2)]]

lemma centroid_sGen (o : ℝ × ℝ) : centroid (sGen o).points = (0, 0) := by
  simp [sGen, centroid, sumY, sumX]

lemma frobSq_sGen (o : ℝ × ℝ) : frobSq (sGen o).points = 1 := by
  simp [sGen, frobSq]
  norm_num

lemma translate_sGen (o : ℝ × ℝ) : translate_to_origin (sGen o) = sGen o :=
  translate_of_centered _ (centroid_sGen o)

lemma scale_sGen (o : ℝ × ℝ) : scale_to_unit (sGen o) = .ok (sGen o) := by
  simp only [scale_to_unit, frobSq_sGen, Real.sqrt_one]
  rw [if_neg one_ne_zero]
  simp [sGen]

lemma read_row_sGen : read_vector [1 / 2, 1 / 2, -(1 / 2), -(1 / 2)] = sGen (0, 0) := rfl

lemma coll_mOne : ((mOne.map read_vector).map translate_to_origin) = [sGen (0, 0)] := by
  simp only [mOne, List.map_cons, List.map_nil, read_row_sGen, translate_sGen]

lemma translate_row_mThree :
    translate_to_origin (read_vector [7 / 2, 1 / 2, 5 / 2, -(1 / 2)]) = sGen (3, 0) := by
  have hp : (read_vector [7 / 2, 1 / 2, 5 / 2, -(1 / 2)]).points
      = [((7 : ℝ) / 2, (1 : ℝ) / 2), ((5 : ℝ) / 2, -(1 / 2))] := rfl
  have hc : centroid (read_vector [7 / 2, 1 / 2, 5 / 2, -(1 / 2)]).points = (3, 0) := by
    rw [hp]
    simp [centroid, sumY, sumX]
    norm_num
  rw [translate_to_origin]
  rw [hc, hp]
  simp only [sGen, Shape.mk.injEq]
  refine ⟨?_, rfl, ?_⟩
  · norm_num
  · show ((0 : ℝ) + 3, (0 : ℝ) + 0) = ((3 : ℝ), (0 : ℝ))
    norm_num

lemma coll_mThree : ((mThree.map read_vector).map translate_to_origin) = [sGen (3, 0)] := by
  simp only [mThree, List.map_cons, List.map_nil, translate_row_mThree]

lemma mapExcept_sGen (o : ℝ × ℝ) : mapExcept scale_to_unit [sGen o] = .ok [sGen o] := by
  simp only [mapExcept, scale_sGen]

lemma ssd_zeros_sGen (o : ℝ × ℝ) : ssd (zeros_of (sGen o)) (sGen o) = 1 := by
  simp [ssd, zeros_of, sGen]
  norm_num

lemma ssd_sGen_self (o : ℝ × ℝ) : ssd (sGen o) (sGen o) = 0 := by
  simp [ssd, sGen]

lemma eps_pos : (0 : ℝ) < convergence_eps := by
  norm_num [convergence_eps]

lemma one_not_lt_eps : ¬ ((1 : ℝ) < convergence_eps) := by
  norm_num [convergence_eps]

lemma mean_vector_sGen (o : ℝ × ℝ) :
    mean_vector [sGen o] = [1 / 2, 1 / 2, -(1 / 2), -(1 / 2)] := by
  simp [mean_vector, sum_vectors, as_vector, sGen]

lemma set_vector_sGen (o : ℝ × ℝ) :
    set_vector (sGen o) [1 / 2, 1 / 2, -(1 / 2), -(1 / 2)] = sGen o := rfl

lemma rotation_alignment_sGen (o o' : ℝ × ℝ) :
    rotation_alignment (sGen o) (sGen o') = (1, 0) := by
  have hA : (List.zipWith (fun p q : ℝ × ℝ => p.1 * q.1 + p.2 * q.2)
      (sGen o).points (sGen o').points).sum = 1 := by
    simp [sGen]
    norm_num
  have hB : (List.zipWith (fun p q : ℝ × ℝ => p.1 * q.2 - p.2 * q.1)
      (sGen o).points (sGen o').points).sum = 0 := by
    simp [sGen]
  simp only [rotation_alignment, hA, hB]
  norm_num

lemma rotate_one_sGen (o : ℝ × ℝ) : rotate (1, 0) (sGen o) = sGen o := by
  simp [rotate, sGen]

lemma check_distance_sGen (o : ℝ × ℝ) : check_distance (sGen o) = 0 := by
  rw [check_distance, frobSq_sGen]
  ring

lemma rot_step_sGen (o o' : ℝ × ℝ) : rot_step (sGen o) (sGen o') = sGen o' := by
  simp only [rot_step, rotation_alignment_sGen, rotate_one_sGen, check_distance_sGen]
  rw [if_pos (by norm_num), translate_sGen]

lemma loop_body_sGen (o : ℝ × ℝ) : loop_body (sGen o) [sGen o] = .ok (sGen o, [sGen o]) := by
  simp only [loop_body, mean_vector_sGen, set_vector_sGen, translate_sGen, scale_sGen,
    List.map_cons, List.map_nil, rot_step_sGen]

lemma loop_go_succ (fuel : ℕ) (old mean : Shape) (shapes : List Shape) :
    loop_go (fuel + 1) old mean shapes =
      if ssd old mean < convergence_eps then .ok (mean, shapes)
      else
        match loop_body mean shapes with
        | .error e => .error e
        | .ok (m2, sh2) => loop_go fuel mean m2 sh2 := rfl

lemma loop_go_sGen (o : ℝ × ℝ) :
    loop_go 3 (zeros_of (sGen o)) (sGen o) [sGen o] = .ok (sGen o, [sGen o]) := by
  rw [show (3 : ℕ) = 2 + 1 from rfl]
  rw [loop_go_succ, ssd_zeros_sGen, if_neg one_not_lt_eps]
  simp only [loop_body_sGen]
  rw [show (2 : ℕ) = 1 + 1 from rfl]
  rw [loop_go_succ, ssd_sGen_self, if_pos eps_pos]

lemma align_one_run : align 3 mOne = .ok { shapes := [sGen (0, 0)], mean := sGen (0, 0) } := by
  simp only [align, coll_mOne, mapExcept_sGen, loop_go_sGen]
  norm_num [sGen]

lemma align_off_run : align 3 mThree = .ok { shapes := [sGen (3, 0)], mean := sGen (3, 0) } := by
  simp only [align, coll_mThree, mapExcept_sGen, loop_go_sGen]
  norm_num [sGen]

/-- Witness for C1: the conclusion of `c1_align_result` at the concrete
terminating run `align 3 mOne`. -/
theorem c1_align_result_witness :
    (∀ s ∈ ({ shapes := [sGen (0, 0)], mean := sGen (0, 0) } : RefState).shapes,
      centroid s.points = (0, 0) ∧ frobSq s.points = 1) ∧
    centroid ({ shapes := [sGen (0, 0)], mean := sGen (0, 0) } : RefState).mean.points = (0, 0) ∧
    frobSq ({ shapes := [sGen (0, 0)], mean := sGen (0, 0) } : RefState).mean.points = 1 ∧
    ({ shapes := [sGen (0, 0)], mean := sGen (0, 0) } : RefState).mean.scale_factor =
      (mOne.map (fun row =>
        Real.sqrt (frobSq (translate_to_origin (read_vector row)).points))).sum
        / (mOne.length : ℝ) :=
  c1_align_result 3 mOne _ align_one_run

/-- Claim C9: `align` performs no input validation.  On the degenerate
single-shape collection `mOne` (fewer than 2 shapes) it completes normally and
returns an aligned state instead of failing with an `InvalidInput` error. -/
theorem c9_no_invalid_input_error :
    align 3 mOne = .ok { shapes := [sGen (0, 0)], mean := sGen (0, 0) } :=
  align_one_run

/-! ### A diverging run of align

`mTwo` holds two centered unit shapes that are exact negations of each other,
so the Procrustes mean is identically zero.  Its unit-scaling divides by zero
(a NaN cascade in the float code), after which `is_converged` can never hold:
the uncapped `while` loop of line 126 never exits.  In the embedding the run
aborts at the zero divisor for every fuel value. -/

noncomputable def sNeg : Shape :=
  { points := [(-(1 / 2), -(1 / 2)), (1 / 2, 1 / 2)], scale_factor := 1, offset := (0, 0) }

noncomputable def mTwo : List (List ℝ) :=
  [[1 / 2, 1 / 2, -(1 / 2), -(1 / 2)], [-(1 / 2), -(1 / 2), 1 / 2, 1 / 2]]

lemma centroid_sNeg : centroid sNeg.points = (0, 0) := by
  simp [sNeg, centroid, sumY, sumX]

lemma frobSq_sNeg : frobSq sNeg.points = 1 := by
  simp [sNeg, frobSq]
  norm_num

lemma translate_sNeg : translate_to_origin sNeg = sNeg :=
  translate_of_centered _ centroid_sNeg

lemma scale_sNeg : scale_to_unit sNeg = .ok sNeg := by
  simp only [scale_to_unit, frobSq_sNeg, Real.sqrt_one]
  rw [if_neg one_ne_zero]
  simp [sNeg]

lemma read_row_sNeg : read_vector [-(1 / 2), -(1 / 2), 1 / 2, 1 / 2] = sNeg := rfl

lemma coll_mTwo :
    ((mTwo.map read_vector).map translate_to_origin) = [sGen (0, 0), sNeg] := by
  simp only [mTwo, List.map_cons, List.map_nil, read_row_sGen, read_row_sNeg,
    translate_sGen, translate_sNeg]

lemma mapExcept_mTwo :
    mapExcept scale_to_unit [sGen (0, 0), sNeg] = .ok [sGen (0, 0), sNeg] := by
  simp only [mapExcept, scale_sGen, scale_sNeg]

lemma mean_vector_mTwo : mean_vector [sGen (0, 0), sNeg] = [0, 0, 0, 0] := by
  simp [mean_vector, sum_vectors, as_vector, sGen, sNeg]

lemma set_vector_zero (o : ℝ × ℝ) :
    set_vector (sGen o) [0, 0, 0, 0]
      = { points := [((0 : ℝ), (0 : ℝ)), ((0 : ℝ), (0 : ℝ))], scale_factor := 1,
          offset := o } := rfl

lemma translate_zero_shape (o : ℝ × ℝ) :
    translate_to_origin
        ({ points := [((0 : ℝ), (0 : ℝ)), ((0 : ℝ), (0 : ℝ))], scale_factor := 1,
           offset := o } : Shape)
      = { points := [((0 : ℝ), (0 : ℝ)), ((0 : ℝ), (0 : ℝ))], scale_factor := 1,
          offset := o } := by
  apply translate_of_centered
  simp [centroid, sumY, sumX]

lemma scale_zero_shape (o : ℝ × ℝ) :
    scale_to_unit
        ({ points := [((0 : ℝ), (0 : ℝ)), ((0 : ℝ), (0 : ℝ))], scale_factor := 1,
           offset := o } : Shape)
      = .error .divByZero := by
  have h0 : frobSq [((0 : ℝ), (0 : ℝ)), ((0 : ℝ), (0 : ℝ))] = 0 := by
    simp [frobSq]
  simp only [scale_to_unit, h0, Real.sqrt_zero, if_true, eq_self_iff_true]

lemma loop_body_mTwo : loop_body (sGen (0, 0)) [sGen (0, 0), sNeg] = .error .divByZero := by
  simp only [loop_body, mean_vector_mTwo, set_vector_zero, translate_zero_shape,
    scale_zero_shape]

/-- Claim C2: the convergence loop of `align` has no iteration cap, and on the
collection `mTwo` the recomputed mean shape is identically zero, so its
normalization divides by zero and the convergence test can never succeed: no
amount of fuel makes the run reach convergence. -/
theorem c2_uncapped_loop_diverges (fuel : ℕ) :
    align (fuel + 1) mTwo = .error .divByZero := by
  simp only [align, coll_mTwo, mapExcept_mTwo, loop_go_succ, ssd_zeros_sGen,
    if_neg one_not_lt_eps, loop_body_mTwo]

/-! ### The loop with its trace of means (for the order-preservation claim) -/

/-- The loop `loop_go` instrumented to also return the sequence of mean shapes computed
by the executed loop bodies. -/
noncomputable def loop_go_tr : ℕ → Shape → Shape → List Shape →
    Except AlignErr (Shape × List Shape × List Shape)
  | 0, old, mean, shapes =>
      if ssd old mean < convergence_eps then .ok (mean, shapes, [])
      else .error .fuelExhausted
  | fuel + 1, old, mean, shapes =>
      if ssd old mean < convergence_eps then .ok (mean, shapes, [])
      else
        match loop_body mean shapes with
        | .error e => .error e
        | .ok (m2, sh2) =>
          match loop_go_tr fuel mean m2 sh2 with
          | .error e => .error e
          | .ok (mF, shF, ms) => .ok (mF, shF, m2 :: ms)

lemma loop_go_tr_of_ok :
    ∀ (fuel : ℕ) (old mean : Shape) (shapes : List Shape) (mF : Shape)
      (shF : List Shape),
      loop_go fuel old mean shapes = .ok (mF, shF) →
      ∃ ms, loop_go_tr fuel old mean shapes = .ok (mF, shF, ms) := by
  intro fuel
  induction fuel with
  | zero =>
    intro old mean shapes mF shF h
    rw [loop_go] at h
    rw [loop_go_tr]
    split_ifs at h ⊢ with hc
    · injection h with h
      injection h with h1 h2
      subst h1; subst h2
      exact ⟨[], rfl⟩
  | succ f ih =>
    intro old mean shapes mF shF h
    rw [loop_go_succ] at h
    rw [loop_go_tr]
    split_ifs at h ⊢ with hc
    · injection h with h
      injection h with h1 h2
      subst h1; subst h2
      exact ⟨[], rfl⟩
    · rcases hb : loop_body mean shapes with e | p
      · simp only [hb] at h
        exact Except.noConfusion h
      · rcases p with ⟨m2, sh2⟩
        simp only [hb] at h ⊢
        obtain ⟨ms, hms⟩ := ih mean m2 sh2 mF shF h
        simp only [hms]
        exact ⟨m2 :: ms, rfl⟩

lemma loop_go_tr_fold :
    ∀ (fuel : ℕ) (old mean : Shape) (shapes : List Shape) (mF : Shape)
      (shF : List Shape) (ms : List Shape),
      loop_go_tr fuel old mean shapes = .ok (mF, shF, ms) →
      shF = shapes.map (fun s => ms.foldl (fun t m => rot_step m t) s) := by
  intro fuel
  induction fuel with
  | zero =>
    intro old mean shapes mF shF ms h
    rw [loop_go_tr] at h
    split_ifs at h
    · injection h with h
      injection h with h1 h2
      injection h2 with h2 h3
      subst h2; subst h3
      simp
  | succ f ih =>
    intro old mean shapes mF shF ms h
    rw [loop_go_tr] at h
    split_ifs at h with hc
    · injection h with h
      injection h with h1 h2
      injection h2 with h2 h3
      subst h2; subst h3
      simp
    · rcases hb : loop_body mean shapes with e | p
      · simp only [hb] at h
        exact Except.noConfusion h
      · rcases p with ⟨m2, sh2⟩
        simp only [hb] at h
        rcases htr : loop_go_tr f mean m2 sh2 with e | q
        · simp only [htr] at h
          exact Except.noConfusion h
        · rcases q with ⟨mF', shF', ms'⟩
          simp only [htr] at h
          injection h with h
          injection h with h1 h2
          injection h2 with h2 h3
          subst h1; subst h2; subst h3
          obtain ⟨-, hsh2⟩ := loop_body_ok hb
          rw [ih mean m2 sh2 mF' shF' ms' htr, hsh2, List.map_map]
          refine List.map_congr_left ?_
          intro s _
          simp [List.foldl_cons]

/-- Claim C10: a terminating `align` run keeps exactly one entry per input
shape, in input order: row `i` of `retrieve_as_matrix` is the initial
normalization of input row `i` followed by the run's global sequence of
per-iteration realignment steps — nothing is reordered, added or dropped. -/
theorem c10_align_preserves_order (fuel : ℕ) (M : List (List ℝ)) (st : RefState)
    (h : align fuel M = .ok st) :
    st.shapes.length = M.length ∧
    (retrieve_as_matrix st).length = M.length ∧
    ∃ ms : List Shape, ∀ (i : ℕ) (row : List ℝ), M.get? i = some row →
      ∃ s0, scale_to_unit (translate_to_origin (read_vector row)) = .ok s0 ∧
        (retrieve_as_matrix st).get? i
          = some (as_vector (ms.foldl (fun t m => rot_step m t) s0)) := by
  obtain ⟨coll2, s0, rest, mF, hme, hcoll, hlg, hmean⟩ := align_ok_elim h
  obtain ⟨ms, htr⟩ := loop_go_tr_of_ok fuel (zeros_of s0) s0 coll2 mF st.shapes hlg
  have hfold := loop_go_tr_fold fuel (zeros_of s0) s0 coll2 mF st.shapes ms htr
  have hlen2 : coll2.length = M.length := by
    rw [mapExcept_length hme]
    simp
  refine ⟨?_, ?_, ms, ?_⟩
  · rw [hfold, List.length_map, hlen2]
  · rw [retrieve_as_matrix, List.length_map, hfold, List.length_map, hlen2]
  · intro i row hrow
    have h1 : ((M.map read_vector).map translate_to_origin).get? i
        = some (translate_to_origin (read_vector row)) := by
      rw [List.get?_map, List.get?_map, hrow]
      rfl
    obtain ⟨b, hb, hbi⟩ := mapExcept_get hme i _ h1
    refine ⟨b, hb, ?_⟩
    rw [retrieve_as_matrix, List.get?_map, hfold, List.get?_map, hbi]
    rfl

/-- Witness for C10: its conclusion at the concrete terminating run
`align 3 mOne`. -/
theorem c10_align_preserves_order_witness :
    ({ shapes := [sGen (0, 0)], mean := sGen (0, 0) } : RefState).shapes.length
        = mOne.length ∧
    (retrieve_as_matrix { shapes := [sGen (0, 0)], mean := sGen (0, 0) }).length
        = mOne.length ∧
    ∃ ms : List Shape, ∀ (i : ℕ) (row : List ℝ), mOne.get? i = some row →
      ∃ s0, scale_to_unit (translate_to_origin (read_vector row)) = .ok s0 ∧
        (retrieve_as_matrix
            { shapes := [sGen (0, 0)], mean := sGen (0, 0) }).get? i
          = some (as_vector (ms.foldl (fun t m => rot_step m t) s0)) :=
  c10_align_preserves_order 3 mOne _ align_one_run

/-! ### The rescale-and-realign round trip (claim C6) -/

lemma sumY_affine (l : List (ℝ × ℝ)) (a c1 c2 : ℝ) :
    sumY (l.map (fun p => (a * p.1 + c1, a * p.2 + c2))) = a * sumY l + l.length * c1 := by
  induction l with
  | nil => simp [sumY]
  | cons p t ih => simp [sumY_cons, ih]; ring

lemma sumX_affine (l : List (ℝ × ℝ)) (a c1 c2 : ℝ) :
    sumX (l.map (fun p => (a * p.1 + c1, a * p.2 + c2))) = a * sumX l + l.length * c2 := by
  induction l with
  | nil => simp [sumX]
  | cons p t ih => simp [sumX_cons, ih]; ring

lemma frobSq_smul (l : List (ℝ × ℝ)) (a : ℝ) :
    frobSq (l.map (fun p => (a * p.1, a * p.2))) = a ^ 2 * frobSq l := by
  induction l with
  | nil => simp [frobSq]
  | cons p t ih => simp [frobSq_cons, ih]; ring

lemma rescale_points (f : ℝ) (s : Shape) :
    (rescale_with_factor f s).points = s.points.map (fun p => (f * p.1, f * p.2)) := rfl

lemma realign_points (s : Shape) :
    (realign_to_absolute s).points
      = s.points.map (fun p => (p.1 + s.offset.1, p.2 + s.offset.2)) := rfl

lemma points_ne_nil_of_unit {s : Shape} (h1 : frobSq s.points = 1) : s.points ≠ [] := by
  intro h0
  rw [h0, frobSq_nil] at h1
  exact zero_ne_one h1

/-- The corrected inverse: translating back to the origin and then re-scaling
to unit recovers the pre-rescale coordinates of a centered unit shape, for any
positive factor and any retained offset. -/
lemma roundtrip_core (f : ℝ) (hf : 0 < f) (s : Shape)
    (hc : centroid s.points = (0, 0)) (h1 : frobSq s.points = 1) :
    (scale_to_unit (translate_to_origin
        (realign_to_absolute (rescale_with_factor f s)))).map Shape.points
      = .ok s.points := by
  have hne : s.points ≠ [] := points_ne_nil_of_unit h1
  have hlen : ((s.points.length : ℕ) : ℝ) ≠ 0 :=
    Nat.cast_ne_zero.mpr (List.length_pos.mpr hne).ne'
  obtain ⟨hY0, hX0⟩ := (centroid_eq_zero_iff _ hne).mp hc
  have ht : (realign_to_absolute (rescale_with_factor f s)).points
      = s.points.map (fun p => (f * p.1 + s.offset.1, f * p.2 + s.offset.2)) := by
    rw [realign_points, rescale_points, List.map_map]
    rfl
  have htc : centroid (realign_to_absolute (rescale_with_factor f s)).points
      = (s.offset.1, s.offset.2) := by
    rw [ht, centroid, sumY_affine, sumX_affine, hY0, hX0, List.length_map]
    simp only [mul_zero, zero_add]
    rw [Prod.mk.injEq]
    refine ⟨?_, ?_⟩ <;> field_simp
  have hu : (translate_to_origin (realign_to_absolute (rescale_with_factor f s))).points
      = s.points.map (fun p => (f * p.1, f * p.2)) := by
    rw [translate_points, htc, ht, List.map_map]
    refine List.map_congr_left ?_
    intro p _
    simp [Function.comp]
  have hsq : Real.sqrt (frobSq
      (translate_to_origin (realign_to_absolute (rescale_with_factor f s))).points) = f := by
    rw [hu, frobSq_smul, h1, mul_one, Real.sqrt_sq hf.le]
  simp only [scale_to_unit, hsq]
  rw [if_neg hf.ne']
  simp only [Except.map]
  rw [hu, List.map_map]
  refine congrArg Except.ok ?_
  refine Eq.trans (List.map_congr_left ?_) (List.map_id s.points)
  intro p _
  simp only [Function.comp_apply]
  rw [mul_div_cancel_left₀ _ hf.ne', mul_div_cancel_left₀ _ hf.ne']
  rfl

/-- Claim C6 (amended): `rescale_and_realign` followed by the inverse
operations applied in the order translate-to-origin first, then scale-to-unit
— not the claimed order — reconstructs each shape's pre-rescale coordinates
exactly, provided the mean scale factor is positive. -/
theorem c6_rescale_realign_roundtrip (st : RefState)
    (hsh : ∀ s ∈ st.shapes, centroid s.points = (0, 0) ∧ frobSq s.points = 1)
    (hf : 0 < st.mean.scale_factor) (i : ℕ) (s : Shape)
    (hi : st.shapes.get? i = some s) :
    (rescale_and_realign st).shapes.get? i
      = some (realign_to_absolute (rescale_with_factor st.mean.scale_factor s)) ∧
    (scale_to_unit (translate_to_origin
        (realign_to_absolute (rescale_with_factor st.mean.scale_factor s)))).map
      Shape.points = .ok s.points := by
  have hmem : s ∈ st.shapes := List.get?_mem hi
  obtain ⟨hc, h1⟩ := hsh s hmem
  constructor
  · rw [rescale_and_realign]
    simp only [List.get?_map, hi, Option.map_some']
  · exact roundtrip_core _ hf s hc h1

/-- Witness for C6 (amended): the round trip at a concrete aligned state. -/
theorem c6_rescale_realign_roundtrip_witness :
    (rescale_and_realign { shapes := [sGen (0, 0)], mean := sGen (0, 0) }).shapes.get? 0
      = some (realign_to_absolute (rescale_with_factor
          ({ shapes := [sGen (0, 0)], mean := sGen (0, 0) } : RefState).mean.scale_factor
          (sGen (0, 0)))) ∧
    (scale_to_unit (translate_to_origin
        (realign_to_absolute (rescale_with_factor
          ({ shapes := [sGen (0, 0)], mean := sGen (0, 0) } : RefState).mean.scale_factor
          (sGen (0, 0)))))).map Shape.points = .ok (sGen (0, 0)).points :=
  c6_rescale_realign_roundtrip { shapes := [sGen (0, 0)], mean := sGen (0, 0) }
    (by
      intro s hs
      simp only [List.mem_singleton] at hs
      subst hs
      exact ⟨centroid_sGen _, frobSq_sGen _⟩)
    (by norm_num [sGen]) 0 (sGen (0, 0)) rfl

/-- The absolute-coordinate shape produced by `rescale_and_realign` on the
aligned state of `mThree`. -/
noncomputable def sAbs : Shape :=
  { points := [(7 / 2, 1 / 2), (5 / 2, -(1 / 2))], scale_factor := 1, offset := (3, 0) }

/-- Counterexample to claim C6 as stated: on the aligned collection obtained
from `mThree` (original centroid (3, 0)), applying `rescale_and_realign` and
then the claimed inverse order — `scale_to_unit` first, `translate_to_origin`
second — does not recover the pre-rescale coordinates: `scale_to_unit` divides
by the Frobenius norm of the absolute-position shape (√19 here), not by the
mean scale factor. -/
theorem c6_counterexample :
    align 3 mThree = .ok { shapes := [sGen (3, 0)], mean := sGen (3, 0) } ∧
    (rescale_and_realign { shapes := [sGen (3, 0)], mean := sGen (3, 0) }).shapes
      = [sAbs] ∧
    (scale_to_unit sAbs).map (fun u => (translate_to_origin u).points)
      ≠ .ok (sGen (3, 0)).points := by
  refine ⟨align_off_run, ?_, ?_⟩
  · simp only [rescale_and_realign, List.map_cons, List.map_nil]
    simp [rescale_with_factor, realign_to_absolute, sGen, sAbs]
    norm_num
  · have h19 : frobSq sAbs.points = 19 := by
      simp [sAbs, frobSq]
      norm_num
    have hr1 : 1 < Real.sqrt 19 := by
      rw [show (1 : ℝ) = Real.sqrt 1 by rw [Real.sqrt_one]]
      exact Real.sqrt_lt_sqrt (by norm_num) (by norm_num)
    have hr0 : Real.sqrt 19 ≠ 0 := by
      intro h0
      rw [h0] at hr1
      exact absurd hr1 (by norm_num)
    simp only [scale_to_unit, h19]
    rw [if_neg hr0]
    simp only [Except.map]
    intro heq
    injection heq with heq
    rw [translate_points] at heq
    simp only [sAbs, sGen, List.map_cons, List.map_nil, List.cons.injEq,
      Prod.mk.injEq, and_true] at heq
    obtain ⟨⟨hA, -⟩, hB, -⟩ := heq
    have h3 : (7 : ℝ) / 2 / Real.sqrt 19 - 5 / 2 / Real.sqrt 19 = 1 := by
      linarith [hA, hB]
    field_simp at h3
    linarith [hr1, h3]

/-! ### VarianceModel (src/ActiveShapeModel.py lines 184-247)

The VarianceModel code is closed under field operations, so the Python floats
are embedded exactly as rationals.  The external numerical collaborators —
sklearn's `PCA` and numpy's `eigvalsh` — are excluded collaborators in the
spec and enter the embedding as function parameters. -/

/-- The result of the external PCA fit: the retained components
(`components_`) and their explained-variance fractions
(`explained_variance_ratio_`), index-aligned. -/
structure PCAFit where
  components : List (List ℚ)
  ratios : List ℚ
deriving DecidableEq

/-- The error of querying PCA results before fitting (the `ValueError`s of
lines 227 and 237). -/
inductive VMErr
  | notComputed
deriving DecidableEq

/-- The state held by a `VarianceModel`. -/
structure VModel where
  deviation : List (List ℚ)
  covariance : Option (List (List ℚ))
  pca_fitter : Option PCAFit

/-- Column means `np.mean(matrix, axis=0)` over rationals (the `mean_model()` call of the
constructor, lines 26-35 on a matrix). -/
def q_mean_vector (m : List (List ℚ)) : List ℚ :=
  (sum_vectors m).map (· / (m.length : ℚ))

/-- Constructor `VarianceModel.__init__` (lines 186-199): the deviation matrix subtracts
the collection's arithmetic mean vector from every row; covariance and PCA
are not yet computed. -/
def mk_variance_model (data : List (List ℚ)) : VModel :=
  { deviation := data.map (fun row => List.zipWith (· - ·) row (q_mean_vector data)),
    covariance := none,
    pca_fitter := none }

/-- One entry of `np.cov(deviation, rowvar=0)`: the sample covariance of
columns `i` and `j` (normalized by `len - 1`). -/
def cov_entry (m : List (List ℚ)) (i j : ℕ) : ℚ :=
  let mi := (m.map (fun r => r.getD i 0)).sum / m.length
  let mj := (m.map (fun r => r.getD j 0)).sum / m.length
  (m.map (fun r => (r.getD i 0 - mi) * (r.getD j 0 - mj))).sum / ((m.length : ℚ) - 1)

/-- Method `VarianceModel._covariance_matrix` (lines 201-205):
`np.cov(self.deviation, rowvar=0)`. -/
def cov_matrix (m : List (List ℚ)) : List (List ℚ) :=
  (List.range (m.headD []).length).map (fun i =>
    (List.range (m.headD []).length).map (fun j => cov_entry m i j))

/-- Method `VarianceModel.obtain_components` (lines 207-219): compute the covariance
matrix if not yet present, then fit the external PCA on the deviation data. -/
def obtain_components (pca : List (List ℚ) → ℕ → PCAFit) (num_comp : ℕ)
    (vm : VModel) : VModel :=
  let vm1 := if vm.covariance = none
    then { vm with covariance := some (cov_matrix vm.deviation) } else vm
  { vm1 with pca_fitter := some (pca vm.deviation num_comp) }

/-- Method `VarianceModel.get_components` (lines 221-229). -/
def get_components (vm : VModel) : Except VMErr (List (List ℚ)) :=
  match vm.pca_fitter with
  | none => .error .notComputed
  | some fit => .ok fit.components

/-- Method `VarianceModel.get_variances_explained` (lines 231-239). -/
def get_variances_explained (vm : VModel) : Except VMErr (List ℚ) :=
  match vm.pca_fitter with
  | none => .error .notComputed
  | some fit => .ok fit.ratios

/-- Method `VarianceModel.get_eigenvalues` (lines 241-247): eigenvalues of the stored
covariance matrix (computed by the external `eigvalsh`), sorted descending and
truncated to the retained component count.  Before `obtain_components` the
code errors (`eigvalsh(None)`, missing `components_`). -/
def get_eigenvalues (eigvalsh : List (List ℚ) → List ℚ) (vm : VModel) :
    Except VMErr (List ℚ) :=
  match vm.covariance, vm.pca_fitter with
  | some cov, some fit =>
      .ok (((eigvalsh cov).insertionSort (· ≥ ·)).take fit.components.length)
  | _, _ => .error .notComputed

/-- Claim C7: `get_components` and `get_variances_explained` fail with the
not-computed error exactly when called before `obtain_components`; afterwards
they return the fitted components and the explained-variance fractions of the
same fit, index-aligned. -/
theorem c7_getters_iff_not_computed (data : List (List ℚ))
    (pca : List (List ℚ) → ℕ → PCAFit) (n : ℕ) :
    get_components (mk_variance_model data) = .error .notComputed ∧
    get_variances_explained (mk_variance_model data) = .error .notComputed ∧
    (∀ vm : VModel, get_components vm = .error .notComputed ↔ vm.pca_fitter = none) ∧
    (∀ vm : VModel,
      get_variances_explained vm = .error .notComputed ↔ vm.pca_fitter = none) ∧
    (∀ vm : VModel, (obtain_components pca n vm).pca_fitter ≠ none) ∧
    get_components (obtain_components pca n (mk_variance_model data))
      = .ok (pca (mk_variance_model data).deviation n).components ∧
    get_variances_explained (obtain_components pca n (mk_variance_model data))
      = .ok (pca (mk_variance_model data).deviation n).ratios := by
  refine ⟨rfl, rfl, ?_, ?_, ?_, ?_, ?_⟩
  · intro vm
    rcases hf : vm.pca_fitter with - | fit
    · simp [get_components, hf]
    · simp [get_components, hf]
  · intro vm
    rcases hf : vm.pca_fitter with - | fit
    · simp [get_variances_explained, hf]
    · simp [get_variances_explained, hf]
  · intro vm
    simp [obtain_components]
  · simp [get_components, obtain_components, mk_variance_model]
  · simp [get_variances_explained, obtain_components, mk_variance_model]

/-- Claim C8: after `obtain_components`, `get_eigenvalues` returns the
eigenvalues of the covariance matrix of the deviation data, sorted
non-increasingly, with length exactly the retained component count (provided,
as the PCA fit guarantees, that no more components are retained than there are
eigenvalues). -/
theorem c8_eigenvalues_sorted (data : List (List ℚ))
    (pca : List (List ℚ) → ℕ → PCAFit) (eigvalsh : List (List ℚ) → List ℚ)
    (n : ℕ)
    (hK : (pca (mk_variance_model data).deviation n).components.length
      ≤ (eigvalsh (cov_matrix (mk_variance_model data).deviation)).length) :
    get_eigenvalues eigvalsh (obtain_components pca n (mk_variance_model data))
      = .ok (((eigvalsh (cov_matrix (mk_variance_model data).deviation)).insertionSort
          (· ≥ ·)).take
          (pca (mk_variance_model data).deviation n).components.length) ∧
    List.Sorted (· ≥ ·)
      (((eigvalsh (cov_matrix (mk_variance_model data).deviation)).insertionSort
          (· ≥ ·)).take
          (pca (mk_variance_model data).deviation n).components.length) ∧
    (((eigvalsh (cov_matrix (mk_variance_model data).deviation)).insertionSort
          (· ≥ ·)).take
          (pca (mk_variance_model data).deviation n).components.length).length
      = (pca (mk_variance_model data).deviation n).components.length := by
  refine ⟨?_, ?_, ?_⟩
  · simp [get_eigenvalues, obtain_components, mk_variance_model]
  · exact List.Pairwise.sublist (List.take_sublist _ _)
      (List.sorted_insertionSort _ _)
  · rw [List.length_take, List.length_insertionSort]
    exact min_eq_left hK

/-- Witness for C8: concrete data, PCA stub retaining 2 components, and a
3-eigenvalue spectrum. -/
theorem c8_eigenvalues_sorted_witness :
    get_eigenvalues (fun _ => [1, 3, 2])
        (obtain_components (fun _ k => ⟨List.replicate k [1], List.replicate k (1 / 2)⟩) 2
          (mk_variance_model [[1, 0], [0, 1]]))
      = .ok ((((fun (_ : List (List ℚ)) => [(1 : ℚ), 3, 2])
          (cov_matrix (mk_variance_model [[1, 0], [0, 1]]).deviation)).insertionSort
          (· ≥ ·)).take
          (((fun (_ : List (List ℚ)) (k : ℕ) =>
              (⟨List.replicate k [1], List.replicate k (1 / 2)⟩ : PCAFit))
            (mk_variance_model [[1, 0], [0, 1]]).deviation 2).components.length)) ∧
    List.Sorted (· ≥ ·)
      ((((fun (_ : List (List ℚ)) => [(1 : ℚ), 3, 2])
          (cov_matrix (mk_variance_model [[1, 0], [0, 1]]).deviation)).insertionSort
          (· ≥ ·)).take
          (((fun (_ : List (List ℚ)) (k : ℕ) =>
              (⟨List.replicate k [1], List.replicate k (1 / 2)⟩ : PCAFit))
            (mk_variance_model [[1, 0], [0, 1]]).deviation 2).components.length)) ∧
    ((((fun (_ : List (List ℚ)) => [(1 : ℚ), 3, 2])
          (cov_matrix (mk_variance_model [[1, 0], [0, 1]]).deviation)).insertionSort
          (· ≥ ·)).take
          (((fun (_ : List (List ℚ)) (k : ℕ) =>
              (⟨List.replicate k [1], List.replicate k (1 / 2)⟩ : PCAFit))
            (mk_variance_model [[1, 0], [0, 1]]).deviation 2).components.length)).length
      = (((fun (_ : List (List ℚ)) (k : ℕ) =>
              (⟨List.replicate k [1], List.replicate k (1 / 2)⟩ : PCAFit))
            (mk_variance_model [[1, 0], [0, 1]]).deviation 2).components.length) :=
  c8_eigenvalues_sorted [[1, 0], [0, 1]]
    (fun _ k => ⟨List.replicate k [1], List.replicate k (1 / 2)⟩)
    (fun _ => [1, 3, 2]) 2 (by decide)

/-! ### Sampler (src/ActiveShapeModel.py lines 250-339)

The Sampler's geometry is closed under field operations and integer
truncation, so the Python floats are embedded exactly as rationals. -/

/-- Python's `int()` conversion: truncation toward zero. -/
def pyInt (q : ℚ) : ℤ := if 0 ≤ q then ⌊q⌋ else ⌈q⌉

/-- numpy row indexing: a negative index `i` with `-len ≤ i` addresses row
`len + i`; anything else out of `[0, len)` is an `IndexError` (`none`). -/
def npGet {α : Type} (l : List α) (i : ℤ) : Option α :=
  if 0 ≤ i then l.get? i.toNat
  else if 0 ≤ i + l.length then l.get? (i + l.length).toNat
  else none

/-- Modelled from the spec: `utils.normal p q` is the edge normal of the
segment (p, q) — the perpendicular of the edge vector, in (y, x) pairs. -/
def normal_of (p q : ℚ × ℚ) : ℚ × ℚ := (q.2 - p.2, -(q.1 - p.1))

/-- Componentwise average of two vectors, `(n1 + n2) / 2` of line 277. -/
def avg2 (a b : ℚ × ℚ) : ℚ × ℚ := ((a.1 + b.1) / 2, (a.2 + b.2) / 2)

/-- A `mapM` over `Option`, written out so that its equations are plain (the
Python loop appends one normal per index and dies on the first IndexError). -/
def omap {α β : Type} (f : α → Option β) : List α → Option (List β)
  | [] => some []
  | a :: l =>
    match f a with
    | none => none
    | some b =>
      match omap f l with
      | none => none
      | some r => some (b :: r)

/-- Method `Sampler._calculate_normals` (lines 267-277): for each landmark index, the
average of the edge normals of `(points[ind-1], points[ind])` and
`(points[ind], points[(ind+1) % 40])`.  The upper wraparound is hard-coded to
40 landmarks; `points[ind-1]` relies on numpy's negative indexing (`-1` is the
last row), and an out-of-range row access is an error (`none`). -/
def calc_normals (pts : List (ℚ × ℚ)) : Option (List (ℚ × ℚ)) :=
  omap (fun (ind : ℕ) =>
    match npGet pts ((ind : ℤ) - 1), npGet pts (ind : ℤ),
        npGet pts (Int.ofNat ((ind + 1) % 40)) with
    | some pm, some p0, some p1 => some (avg2 (normal_of pm p0) (normal_of p0 p1))
    | _, _, _ => none) (List.range pts.length)

/-- The normals as claim C3 states them: closed-loop wraparound modulo the
landmark count `N` at both ends, for every `N`. -/
def claimed_normals (pts : List (ℚ × ℚ)) : List (ℚ × ℚ) :=
  (List.range pts.length).map (fun i =>
    avg2
      (normal_of (pts.getD ((i + pts.length - 1) % pts.length) (0, 0))
        (pts.getD i (0, 0)))
      (normal_of (pts.getD i (0, 0)) (pts.getD ((i + 1) % pts.length) (0, 0))))

lemma omap_eq_map {α β : Type} {f : α → Option β} {g : α → β} :
    ∀ l : List α, (∀ a ∈ l, f a = some (g a)) → omap f l = some (l.map g) := by
  intro l
  induction l with
  | nil => intro _; rfl
  | cons a t ih =>
    intro hall
    rw [omap, hall a (List.mem_cons_self a t), ih (fun b hb => hall b (List.mem_cons_of_mem a hb))]
    rfl

lemma get?_getD {α : Type} (d : α) :
    ∀ (l : List α) (j : ℕ), j < l.length → l.get? j = some (l.getD j d) := by
  intro l
  induction l with
  | nil =>
    intro j hj
    cases hj
  | cons a t ih =>
    intro j hj
    cases j with
    | zero => rfl
    | succ j' =>
      simp only [List.get?_cons_succ, List.getD_cons_succ]
      exact ih j' (by simpa using hj)

lemma npGet_natCast {α : Type} (l : List α) (j : ℕ) : npGet l (j : ℤ) = l.get? j := by
  rw [npGet, if_pos (Int.natCast_nonneg j), Int.toNat_natCast]

/-- Counterexample to claim C3 as stated: on a 3-landmark shape the code's
hard-coded `(ind + 1) % 40` indexes row 3 of a 3-row matrix at the last
landmark, an IndexError — not the claimed wraparound modulo `N`. -/
theorem c3_counterexample :
    calc_normals [((0 : ℚ), (0 : ℚ)), (0, 1), (1, 0)]
      ≠ some (claimed_normals [((0 : ℚ), (0 : ℚ)), (0, 1), (1, 0)]) := by
  decide

/-- Claim C3 (amended): for shapes with exactly 40 landmarks — the landmark
count of this model, for which `(ind + 1) % 40` coincides with `(ind + 1) % N`
— the Sampler normal at landmark `i` is the average of the two adjacent edge
normals with closed-loop wraparound at both ends. -/
theorem c3_normals_of_forty (pts : List (ℚ × ℚ)) (h : pts.length = 40) :
    calc_normals pts = some (claimed_normals pts) := by
  rw [calc_normals, claimed_normals]
  refine omap_eq_map (List.range pts.length) ?_
  intro i hi
  rw [List.mem_range, h] at hi
  have e0 : npGet pts (i : ℤ) = some (pts.getD i (0, 0)) := by
    rw [npGet_natCast]
    exact get?_getD _ pts i (by omega)
  have e1 : npGet pts ((i : ℤ) - 1)
      = some (pts.getD ((i + pts.length - 1) % pts.length) (0, 0)) := by
    rcases Nat.eq_zero_or_pos i with hz | hp
    · subst hz
      rw [npGet]
      rw [if_neg (by norm_num), if_pos (by rw [h]; norm_num)]
      have ht : ((((0 : ℕ) : ℤ)) - 1 + (pts.length : ℤ)).toNat = 39 := by
        rw [h]
        decide
      rw [ht]
      have hidx : (0 + pts.length - 1) % pts.length = 39 := by
        rw [h]
      rw [hidx]
      exact get?_getD _ pts 39 (by omega)
    · have hcast : (i : ℤ) - 1 = ((i - 1 : ℕ) : ℤ) := by omega
      rw [hcast, npGet_natCast]
      have hidx : (i + pts.length - 1) % pts.length = i - 1 := by
        rw [h]
        omega
      rw [hidx]
      exact get?_getD _ pts (i - 1) (by omega)
  have e2 : npGet pts (Int.ofNat ((i + 1) % 40))
      = some (pts.getD ((i + 1) % pts.length) (0, 0)) := by
    rw [show Int.ofNat ((i + 1) % 40) = (((i + 1) % 40 : ℕ) : ℤ) from rfl, npGet_natCast]
    have hidx : (i + 1) % 40 = (i + 1) % pts.length := by rw [h]
    rw [hidx]
    exact get?_getD _ pts ((i + 1) % pts.length) (by rw [h]; omega)
  rw [e0, e1, e2]

/-- The error of `Sampler._sample` on a zero-intensity profile: Python's
`ZeroDivisionError`, the `DegenerateSample`/`DivisionByZero` condition of the
spec's error taxonomy. -/
inductive SampleErr
  | degenerateSample
deriving DecidableEq

/-- Method `Sampler._sample` (lines 309-325): read the image at each point, then
normalize by the sum of absolute intensities.  When that sum is zero, the
first element-wise division raises (`ZeroDivisionError`); with no points no
division is executed and the empty profile is returned. -/
def py_sample (image : ℤ × ℤ → ℚ) (pts : List (ℤ × ℤ)) : Except SampleErr (List ℚ) :=
  let sample := pts.map image
  let divnum := (sample.map (fun x => |x|)).sum
  if sample ≠ [] ∧ divnum = 0 then .error .degenerateSample
  else .ok (sample.map (fun x => x / divnum))

/-- Claim C5: on a nonempty sample-point list (every Sampler profile has
`2k + 1 ≥ 1` points), `_sample` fails with the degenerate-sample error exactly
when the sum of absolute intensities is zero. -/
theorem c5_zero_sum_degenerate (image : ℤ × ℤ → ℚ) (pts : List (ℤ × ℤ))
    (hne : pts ≠ []) :
    py_sample image pts = .error .degenerateSample
      ↔ ((pts.map image).map (fun x => |x|)).sum = 0 := by
  have hsne : pts.map image ≠ [] := by
    simpa using hne
  rw [py_sample]
  by_cases hz : ((pts.map image).map (fun x => |x|)).sum = 0
  · rw [if_pos ⟨hsne, hz⟩]
    exact iff_of_true rfl hz
  · rw [if_neg (by intro hcon; exact hz hcon.2)]
    exact iff_of_false (by simp) hz

/-- Witness for C5: the all-zero image. -/
theorem c5_zero_sum_degenerate_witness :
    py_sample (fun _ => 0) [(0, 0), (0, 1), (1, 0)] = .error .degenerateSample
      ↔ ((([(0, 0), (0, 1), (1, 0)] : List (ℤ × ℤ)).map
          (fun _ => (0 : ℚ))).map (fun x => |x|)).sum = 0 :=
  c5_zero_sum_degenerate (fun _ => 0) [(0, 0), (0, 1), (1, 0)] (by decide)

/-- Witness for C3 (amended): a concrete 40-landmark shape. -/
theorem c3_normals_of_forty_witness :
    calc_normals ((List.range 40).map (fun (i : ℕ) => ((i : ℚ), (i : ℚ) * i)))
      = some (claimed_normals ((List.range 40).map (fun (i : ℕ) => ((i : ℚ), (i : ℚ) * i)))) :=
  c3_normals_of_forty _ (by rw [List.length_map, List.length_range])

/-! ### Sampler._generate_points (lines 279-307) -/

/-- One pass of the `while` loops of lines 292-304: compute the candidate
point of index `ind` and append it unless it repeats an already collected
point or the starting point. -/
def side_step (center : ℤ × ℤ) (f : ℕ → ℤ × ℤ) (acc : List (ℤ × ℤ)) (ind : ℕ) :
    List (ℤ × ℤ) :=
  if f ind ∈ acc ∨ f ind = center then acc else acc ++ [f ind]

/-- The `while len(...) < k` loops of lines 292-304, with explicit fuel: the
Python loop has no bound of its own and spins forever on a degenerate (zero)
direction. -/
def side_loop (center : ℤ × ℤ) (f : ℕ → ℤ × ℤ) (k : ℕ) :
    ℕ → List (ℤ × ℤ) → ℕ → Option (List (ℤ × ℤ))
  | 0, acc, _ => if k ≤ acc.length then some acc else none
  | fuel + 1, acc, ind =>
      if k ≤ acc.length then some acc
      else side_loop center f k fuel (side_step center f acc ind) (ind + 1)

/-- Method `Sampler._generate_points` (lines 279-307): `int()`-truncated points
stepped by `0.02` times the direction on each side of the truncated start
point, duplicates skipped, the first-listed side reversed and concatenated
around the start point.  (The side collected with the minus sign is called
`pos_points` in the source and ends up after the center.) -/
def generate_points (start dir : ℚ × ℚ) (k : ℕ) (fuel : ℕ) :
    Option (List (ℤ × ℤ)) :=
  let c : ℤ × ℤ := (pyInt start.1, pyInt start.2)
  let posF : ℕ → ℤ × ℤ := fun ind =>
    (pyInt (start.1 - ind * (1 / 50) * dir.1), pyInt (start.2 - ind * (1 / 50) * dir.2))
  let negF : ℕ → ℤ × ℤ := fun ind =>
    (pyInt (start.1 + ind * (1 / 50) * dir.1), pyInt (start.2 + ind * (1 / 50) * dir.2))
  match side_loop c posF k fuel [] 1 with
  | none => none
  | some pos =>
    match side_loop c negF k fuel [] 1 with
    | none => none
    | some neg => some (neg.reverse ++ [c] ++ pos)

lemma side_loop_of_le {center : ℤ × ℤ} {f : ℕ → ℤ × ℤ} {k : ℕ}
    {acc : List (ℤ × ℤ)} (h : k ≤ acc.length) (fuel ind : ℕ) :
    side_loop center f k fuel acc ind = some acc := by
  cases fuel with
  | zero => rw [side_loop, if_pos h]
  | succ fuel => rw [side_loop, if_pos h]

lemma side_step_length {center : ℤ × ℤ} {f : ℕ → ℤ × ℤ}
    (acc : List (ℤ × ℤ)) (ind : ℕ) :
    acc.length ≤ (side_step center f acc ind).length ∧
    (side_step center f acc ind).length ≤ acc.length + 1 := by
  rw [side_step]
  split_ifs
  · exact ⟨le_refl _, Nat.le_succ _⟩
  · rw [List.length_append]
    exact ⟨by omega, by simp⟩

lemma side_loop_facts {center : ℤ × ℤ} {f : ℕ → ℤ × ℤ} {k : ℕ} :
    ∀ (fuel : ℕ) (acc : List (ℤ × ℤ)) (ind : ℕ) (res : List (ℤ × ℤ)),
      side_loop center f k fuel acc ind = some res →
      (acc.length ≤ k → res.length = k) ∧ (acc.Nodup → res.Nodup) ∧
      (center ∉ acc → center ∉ res) := by
  intro fuel
  induction fuel with
  | zero =>
    intro acc ind res h
    rw [side_loop] at h
    split_ifs at h with hk
    injection h with h
    subst h
    exact ⟨fun hle => le_antisymm hle hk, fun hn => hn, fun hc => hc⟩
  | succ fuel ih =>
    intro acc ind res h
    rw [side_loop] at h
    split_ifs at h with hk
    · injection h with h
      subst h
      exact ⟨fun hle => le_antisymm hle hk, fun hn => hn, fun hc => hc⟩
    · obtain ⟨g1, g2, g3⟩ := ih _ _ _ h
      refine ⟨?_, ?_, ?_⟩
      · intro hle
        refine g1 ?_
        rw [side_step]
        split_ifs with hmem
        · exact hle
        · rw [List.length_append]
          simp only [List.length_singleton]
          omega
      · intro hnd
        refine g2 ?_
        rw [side_step]
        split_ifs with hmem
        · exact hnd
        · push_neg at hmem
          simp [List.nodup_append, hnd, hmem.1]
      · intro hc
        refine g3 ?_
        rw [side_step]
        split_ifs with hmem
        · exact hc
        · push_neg at hmem
          simp only [List.mem_append, List.mem_singleton]
          rintro (hca | hcb)
          · exact hc hca
          · exact hmem.2 hcb.symm

lemma side_loop_fuel_mono {center : ℤ × ℤ} {f : ℕ → ℤ × ℤ} {k : ℕ} :
    ∀ (fuel fuel' : ℕ) (acc : List (ℤ × ℤ)) (ind : ℕ) (res : List (ℤ × ℤ)),
      fuel ≤ fuel' →
      side_loop center f k fuel acc ind = some res →
      side_loop center f k fuel' acc ind = some res := by
  intro fuel
  induction fuel with
  | zero =>
    intro fuel' acc ind res _ h
    rw [side_loop] at h
    split_ifs at h with hk
    injection h with h
    subst h
    exact side_loop_of_le hk fuel' ind
  | succ fuel ih =>
    intro fuel' acc ind res hle h
    rw [side_loop] at h
    split_ifs at h with hk
    · injection h with h
      subst h
      exact side_loop_of_le hk fuel' ind
    · rcases fuel' with - | fuel''
      · omega
      · rw [side_loop, if_neg hk]
        exact ih fuel'' _ _ _ (by omega) h

/-! ### Totality of the sampling loops for non-degenerate directions

Along a non-degenerate direction, one coordinate of the truncated sample
points is monotone and unbounded, so the duplicate-skipping loops always find
`k` fresh points. -/

lemma pyInt_mono {x y : ℚ} (h : x ≤ y) : pyInt x ≤ pyInt y := by
  rw [pyInt, pyInt]
  split_ifs with hx hy hy
  · exact Int.floor_le_floor h
  · exact absurd (le_trans hx h) hy
  · have h1 : ⌈x⌉ ≤ 0 := Int.ceil_le.mpr (by push_cast; exact le_of_lt (not_le.mp hx))
    have h2 : (0 : ℤ) ≤ ⌊y⌋ := Int.floor_nonneg.mpr hy
    omega
  · exact Int.ceil_le_ceil h

lemma sub_one_lt_pyInt (x : ℚ) : x - 1 < (pyInt x : ℚ) := by
  rw [pyInt]
  split_ifs with hx
  · exact Int.sub_one_lt_floor x
  · have := Int.le_ceil x
    linarith

lemma pyInt_lt_add_one (x : ℚ) : (pyInt x : ℚ) < x + 1 := by
  rw [pyInt]
  split_ifs with hx
  · have := Int.floor_le x
    linarith
  · exact Int.ceil_lt_add_one x

lemma exists_nat_reach (b a : ℚ) (ha : 0 < a) (B : ℚ) : ∃ n : ℕ, B ≤ b + n * a := by
  obtain ⟨n, hn⟩ := exists_nat_gt ((B - b) / a)
  refine ⟨n, ?_⟩
  rw [div_lt_iff ha] at hn
  linarith

lemma lin_unbounded_above (b a : ℚ) (ha : 0 < a) (B : ℤ) :
    ∃ n : ℕ, B < pyInt (b + n * a) := by
  obtain ⟨n, hn⟩ := exists_nat_reach b a ha (B + 1)
  refine ⟨n, ?_⟩
  have h1 : ((B : ℤ) : ℚ) < (pyInt (b + n * a) : ℚ) := by
    have h2 := sub_one_lt_pyInt (b + n * a)
    push_cast
    push_cast at hn
    linarith
  exact_mod_cast h1

lemma lin_unbounded_below (b a : ℚ) (ha : a < 0) (B : ℤ) :
    ∃ n : ℕ, pyInt (b + n * a) < B := by
  obtain ⟨n, hn⟩ := exists_nat_reach 0 (-a) (by linarith) (b - ((B : ℚ) - 1))
  refine ⟨n, ?_⟩
  have hineq : b + n * a ≤ (B : ℚ) - 1 := by
    have h0 : (b : ℚ) - ((B : ℚ) - 1) ≤ 0 + n * (-a) := hn
    linarith
  have h1 : (pyInt (b + n * a) : ℚ) < ((B : ℤ) : ℚ) := by
    have h2 := pyInt_lt_add_one (b + n * a)
    push_cast
    linarith
  exact_mod_cast h1

lemma seq_le_of_nonneg (b a : ℚ) (ha : 0 ≤ a) {i j : ℕ} (hij : i ≤ j) :
    b + i * a ≤ b + j * a := by
  have hq : (i : ℚ) ≤ j := by exact_mod_cast hij
  nlinarith

lemma seq_le_of_nonpos (b a : ℚ) (ha : a ≤ 0) {i j : ℕ} (hij : i ≤ j) :
    b + j * a ≤ b + i * a := by
  have hq : (i : ℚ) ≤ j := by exact_mod_cast hij
  nlinarith

lemma foldr_max_facts (l : List ℤ) (b : ℤ) :
    (∀ x ∈ l, x ≤ l.foldr max b) ∧ b ≤ l.foldr max b := by
  induction l with
  | nil => exact ⟨by simp, le_refl b⟩
  | cons a t ih =>
    constructor
    · intro x hx
      rcases List.mem_cons.mp hx with rfl | hx
      · exact le_max_left _ _
      · exact le_trans (ih.1 x hx) (le_max_right _ _)
    · exact le_trans ih.2 (le_max_right _ _)

lemma side_loop_total (center : ℤ × ℤ) (f : ℕ → ℤ × ℤ) (k : ℕ) (μ : ℤ × ℤ → ℤ)
    (hmono : ∀ i j : ℕ, i ≤ j → μ (f i) ≤ μ (f j))
    (hunb : ∀ B : ℤ, ∃ n : ℕ, B < μ (f n)) :
    ∀ (d : ℕ) (acc : List (ℤ × ℤ)) (ind : ℕ), k - acc.length ≤ d →
      ∃ fuel res, side_loop center f k fuel acc ind = some res := by
  intro d
  induction d with
  | zero =>
    intro acc ind hd
    have hk : k ≤ acc.length := by omega
    exact ⟨0, acc, side_loop_of_le hk 0 ind⟩
  | succ d ih =>
    intro acc ind hd
    by_cases hk : k ≤ acc.length
    · exact ⟨0, acc, side_loop_of_le hk 0 ind⟩
    · set M0 : ℤ := (acc.map μ).foldr max (max (μ center) (μ (f ind))) with hM0def
      have hex : ∃ n : ℕ, M0 < μ (f n) := hunb M0
      have hNspec : M0 < μ (f (Nat.find hex)) := Nat.find_spec hex
      have hNmin : ∀ j, j < Nat.find hex → μ (f j) ≤ M0 := by
        intro j hj
        exact not_lt.mp (Nat.find_min hex hj)
      have hMacc : ∀ p ∈ acc, μ p ≤ M0 := by
        intro p hp
        exact (foldr_max_facts (acc.map μ) _).1 (μ p) (List.mem_map_of_mem μ hp)
      have hMc : μ center ≤ M0 :=
        le_trans (le_max_left _ _) (foldr_max_facts (acc.map μ) _).2
      have hMind : μ (f ind) ≤ M0 :=
        le_trans (le_max_right _ _) (foldr_max_facts (acc.map μ) _).2
      have hindN : ind ≤ Nat.find hex := by
        by_contra hlt
        push_neg at hlt
        exact absurd (lt_of_lt_of_le hNspec
          (le_trans (hmono _ _ (le_of_lt hlt)) hMind)) (lt_irrefl M0)
      have inner : ∀ (δ : ℕ) (ind' : ℕ) (acc' : List (ℤ × ℤ)),
          ind' + δ = Nat.find hex → (∀ p ∈ acc', μ p ≤ M0) →
          acc.length ≤ acc'.length →
          ∃ fuel res, side_loop center f k fuel acc' ind' = some res := by
        intro δ
        induction δ with
        | zero =>
          intro ind' acc' hiN hacc' hlen
          by_cases hk' : k ≤ acc'.length
          · exact ⟨0, acc', side_loop_of_le hk' 0 ind'⟩
          · have hgt : M0 < μ (f ind') := by
              rw [show ind' = Nat.find hex by omega]
              exact hNspec
            have hfresh1 : f ind' ∉ acc' := by
              intro hmem
              exact absurd (lt_of_lt_of_le hgt (hacc' _ hmem)) (lt_irrefl M0)
            have hfresh2 : f ind' ≠ center := by
              intro heq
              rw [heq] at hgt
              exact absurd (lt_of_lt_of_le hgt hMc) (lt_irrefl M0)
            have hstep : side_step center f acc' ind' = acc' ++ [f ind'] := by
              rw [side_step, if_neg]
              rintro (hmem | heq)
              · exact hfresh1 hmem
              · exact hfresh2 heq
            have hd' : k - (acc' ++ [f ind']).length ≤ d := by
              rw [List.length_append]
              simp only [List.length_singleton]
              omega
            obtain ⟨fuel, res, hrun⟩ := ih (acc' ++ [f ind']) (ind' + 1) hd'
            refine ⟨fuel + 1, res, ?_⟩
            rw [side_loop, if_neg hk', hstep]
            exact hrun
        | succ δ ihδ =>
          intro ind' acc' hiN hacc' hlen
          by_cases hk' : k ≤ acc'.length
          · exact ⟨0, acc', side_loop_of_le hk' 0 ind'⟩
          · have hj : ind' < Nat.find hex := by omega
            have hμj : μ (f ind') ≤ M0 := hNmin ind' hj
            have hinv' : ∀ p ∈ side_step center f acc' ind', μ p ≤ M0 := by
              intro p hp
              rw [side_step] at hp
              split_ifs at hp with hc
              · exact hacc' p hp
              · rcases List.mem_append.mp hp with hp | hp
                · exact hacc' p hp
                · rw [List.mem_singleton] at hp
                  rw [hp]
                  exact hμj
            have hlen' : acc.length ≤ (side_step center f acc' ind').length :=
              le_trans hlen (side_step_length acc' ind').1
            obtain ⟨fuel, res, hrun⟩ :=
              ihδ (ind' + 1) (side_step center f acc' ind') (by omega) hinv' hlen'
            refine ⟨fuel + 1, res, ?_⟩
            rw [side_loop, if_neg hk']
            exact hrun
      exact inner (Nat.find hex - ind) ind acc (by omega) hMacc (le_refl _)

lemma side_total_of_slopes (c0 : ℤ × ℤ) (k : ℕ) (b1 b2 a1 a2 : ℚ)
    (ha : a1 ≠ 0 ∨ a2 ≠ 0) :
    ∃ fuel res, side_loop c0
      (fun (ind : ℕ) => (pyInt (b1 + ind * a1), pyInt (b2 + ind * a2))) k fuel [] 1
        = some res := by
  rcases ha with h1 | h2
  · rcases lt_or_gt_of_ne h1 with hneg | hpos
    · refine side_loop_total c0 _ k (fun p => -p.1) ?_ ?_ k [] 1 (by simp)
      · intro i j hij
        show -pyInt (b1 + i * a1) ≤ -pyInt (b1 + j * a1)
        have := pyInt_mono (seq_le_of_nonpos b1 a1 hneg.le hij)
        omega
      · intro B
        obtain ⟨n, hn⟩ := lin_unbounded_below b1 a1 hneg (-B)
        refine ⟨n, ?_⟩
        show B < -pyInt (b1 + n * a1)
        omega
    · refine side_loop_total c0 _ k Prod.fst ?_ ?_ k [] 1 (by simp)
      · intro i j hij
        show pyInt (b1 + i * a1) ≤ pyInt (b1 + j * a1)
        exact pyInt_mono (seq_le_of_nonneg b1 a1 hpos.le hij)
      · intro B
        obtain ⟨n, hn⟩ := lin_unbounded_above b1 a1 hpos B
        exact ⟨n, hn⟩
  · rcases lt_or_gt_of_ne h2 with hneg | hpos
    · refine side_loop_total c0 _ k (fun p => -p.2) ?_ ?_ k [] 1 (by simp)
      · intro i j hij
        show -pyInt (b2 + i * a2) ≤ -pyInt (b2 + j * a2)
        have := pyInt_mono (seq_le_of_nonpos b2 a2 hneg.le hij)
        omega
      · intro B
        obtain ⟨n, hn⟩ := lin_unbounded_below b2 a2 hneg (-B)
        refine ⟨n, ?_⟩
        show B < -pyInt (b2 + n * a2)
        omega
    · refine side_loop_total c0 _ k Prod.snd ?_ ?_ k [] 1 (by simp)
      · intro i j hij
        show pyInt (b2 + i * a2) ≤ pyInt (b2 + j * a2)
        exact pyInt_mono (seq_le_of_nonneg b2 a2 hpos.le hij)
      · intro B
        obtain ⟨n, hn⟩ := lin_unbounded_above b2 a2 hpos B
        exact ⟨n, hn⟩

/-- Claim C4 (amended): for every landmark, half-width `k`, and non-degenerate
direction, some fuel makes `_generate_points` return exactly `2k + 1` ordered
integer pixel coordinates: `k` distinct points collected on one side of the
landmark (reversed), the `int()`-truncated landmark itself at position `k`,
and `k` distinct points on the other side, duplicates skipped while stepping.
(The claim's "rounded" center is corrected to Python's `int()` truncation
toward zero.) -/
theorem c4_generate_points_shape (start dir : ℚ × ℚ) (k : ℕ) (hd : dir ≠ (0, 0)) :
    ∃ (fuel : ℕ) (neg pos : List (ℤ × ℤ)),
      generate_points start dir k fuel
        = some (neg.reverse ++ [(pyInt start.1, pyInt start.2)] ++ pos) ∧
      neg.length = k ∧ pos.length = k ∧
      (neg.reverse ++ [(pyInt start.1, pyInt start.2)] ++ pos).length = 2 * k + 1 ∧
      (neg.reverse ++ [(pyInt start.1, pyInt start.2)] ++ pos).get? k
        = some (pyInt start.1, pyInt start.2) ∧
      neg.Nodup ∧ pos.Nodup ∧
      (pyInt start.1, pyInt start.2) ∉ neg ∧ (pyInt start.1, pyInt start.2) ∉ pos := by
  have hdir : dir.1 ≠ 0 ∨ dir.2 ≠ 0 := by
    by_contra hcon
    push_neg at hcon
    exact hd (Prod.ext hcon.1 hcon.2)
  have hslopeP : (-(1 / 50) * dir.1 : ℚ) ≠ 0 ∨ (-(1 / 50) * dir.2 : ℚ) ≠ 0 := by
    rcases hdir with h | h
    · exact Or.inl (mul_ne_zero (by norm_num) h)
    · exact Or.inr (mul_ne_zero (by norm_num) h)
  have hslopeN : ((1 / 50) * dir.1 : ℚ) ≠ 0 ∨ ((1 / 50) * dir.2 : ℚ) ≠ 0 := by
    rcases hdir with h | h
    · exact Or.inl (mul_ne_zero (by norm_num) h)
    · exact Or.inr (mul_ne_zero (by norm_num) h)
  obtain ⟨fP, pos, hP⟩ := side_total_of_slopes (pyInt start.1, pyInt start.2) k
    start.1 start.2 (-(1 / 50) * dir.1) (-(1 / 50) * dir.2) hslopeP
  obtain ⟨fN, neg, hN⟩ := side_total_of_slopes (pyInt start.1, pyInt start.2) k
    start.1 start.2 ((1 / 50) * dir.1) ((1 / 50) * dir.2) hslopeN
  have hfunP : (fun (ind : ℕ) =>
      (pyInt (start.1 + ind * (-(1 / 50) * dir.1)),
       pyInt (start.2 + ind * (-(1 / 50) * dir.2))))
      = (fun (ind : ℕ) =>
      (pyInt (start.1 - ind * (1 / 50) * dir.1),
       pyInt (start.2 - ind * (1 / 50) * dir.2))) := by
    funext ind
    rw [show start.1 + ind * (-(1 / 50) * dir.1) = start.1 - ind * (1 / 50) * dir.1 by ring,
        show start.2 + ind * (-(1 / 50) * dir.2) = start.2 - ind * (1 / 50) * dir.2 by ring]
  have hfunN : (fun (ind : ℕ) =>
      (pyInt (start.1 + ind * ((1 / 50) * dir.1)),
       pyInt (start.2 + ind * ((1 / 50) * dir.2))))
      = (fun (ind : ℕ) =>
      (pyInt (start.1 + ind * (1 / 50) * dir.1),
       pyInt (start.2 + ind * (1 / 50) * dir.2))) := by
    funext ind
    rw [show start.1 + ind * ((1 / 50) * dir.1) = start.1 + ind * (1 / 50) * dir.1 by ring,
        show start.2 + ind * ((1 / 50) * dir.2) = start.2 + ind * (1 / 50) * dir.2 by ring]
  rw [hfunP] at hP
  rw [hfunN] at hN
  have hP' := side_loop_fuel_mono fP (max fP fN) _ _ _ (le_max_left _ _) hP
  have hN' := side_loop_fuel_mono fN (max fP fN) _ _ _ (le_max_right _ _) hN
  obtain ⟨hPl, hPnd, hPc⟩ := side_loop_facts _ _ _ _ hP
  obtain ⟨hNl, hNnd, hNc⟩ := side_loop_facts _ _ _ _ hN
  have hplen : pos.length = k := hPl (by simp)
  have hnlen : neg.length = k := hNl (by simp)
  refine ⟨max fP fN, neg, pos, ?_, hnlen, hplen, ?_, ?_,
    hNnd List.nodup_nil, hPnd List.nodup_nil,
    hNc (List.not_mem_nil _), hPc (List.not_mem_nil _)⟩
  · simp only [generate_points, hP', hN']
  · rw [List.length_append, List.length_append, List.length_reverse, hnlen, hplen]
    simp only [List.length_singleton]
    omega
  · rw [List.get?_append
      (by rw [List.length_append, List.length_reverse, hnlen]; simp)]
    rw [List.get?_append_right (by rw [List.length_reverse, hnlen])]
    rw [List.length_reverse, hnlen, Nat.sub_self]
    rfl

lemma side_loop_succ (center : ℤ × ℤ) (f : ℕ → ℤ × ℤ) (k fuel : ℕ)
    (acc : List (ℤ × ℤ)) (ind : ℕ) :
    side_loop center f k (fuel + 1) acc ind =
      if k ≤ acc.length then some acc
      else side_loop center f k fuel (side_step center f acc ind) (ind + 1) := rfl

/-- The step function of the first (`pos_points`) loop at the counterexample
input: landmark `(0.7, 0)`, direction `(0, 50)`. -/
def cexPosF : ℕ → ℤ × ℤ := fun ind =>
  (pyInt (7 / 10 - ind * (1 / 50) * 0), pyInt (0 - ind * (1 / 50) * 50))

/-- The step function of the second (`neg_points`) loop at the counterexample
input. -/
def cexNegF : ℕ → ℤ × ℤ := fun ind =>
  (pyInt (7 / 10 + ind * (1 / 50) * 0), pyInt (0 + ind * (1 / 50) * 50))

lemma cexPosF_one : cexPosF 1 = (0, -1) := by
  have h1 : pyInt ((7 : ℚ) / 10 - 1 * (1 / 50) * 0) = 0 := by norm_num [pyInt]
  have h2 : pyInt ((0 : ℚ) - 1 * (1 / 50) * 50) = -1 := by
    norm_num [pyInt, Int.ceil_neg]
  simp only [cexPosF, Nat.cast_one]
  rw [h1, h2]

lemma cexNegF_one : cexNegF 1 = (0, 1) := by
  have h1 : pyInt ((7 : ℚ) / 10 + 1 * (1 / 50) * 0) = 0 := by norm_num [pyInt]
  have h2 : pyInt ((0 : ℚ) + 1 * (1 / 50) * 50) = 1 := by norm_num [pyInt]
  simp only [cexNegF, Nat.cast_one]
  rw [h1, h2]

lemma cex_center : (pyInt ((7 : ℚ) / 10), pyInt ((0 : ℚ))) = ((0 : ℤ), (0 : ℤ)) := by
  have h5 : pyInt ((7 : ℚ) / 10) = 0 := by norm_num [pyInt]
  have h6 : pyInt ((0 : ℚ)) = 0 := by norm_num [pyInt]
  rw [h5, h6]

lemma gen_run_concrete :
    generate_points (7 / 10, 0) (0, 50) 1 5 = some [(0, 1), (0, 0), (0, -1)] := by
  have hgen : generate_points (7 / 10, 0) (0, 50) 1 5 =
      (match side_loop (pyInt ((7 : ℚ) / 10), pyInt ((0 : ℚ))) cexPosF 1 5 [] 1 with
       | none => none
       | some pos =>
         match side_loop (pyInt ((7 : ℚ) / 10), pyInt ((0 : ℚ))) cexNegF 1 5 [] 1 with
         | none => none
         | some neg =>
             some (neg.reverse ++ [(pyInt ((7 : ℚ) / 10), pyInt ((0 : ℚ)))] ++ pos)) := rfl
  have hstepP : side_step ((0 : ℤ), (0 : ℤ)) cexPosF [] 1 = [(0, -1)] := by
    rw [side_step, cexPosF_one, if_neg (by decide)]
    rfl
  have hstepN : side_step ((0 : ℤ), (0 : ℤ)) cexNegF [] 1 = [(0, 1)] := by
    rw [side_step, cexNegF_one, if_neg (by decide)]
    rfl
  have hPos : side_loop ((0 : ℤ), (0 : ℤ)) cexPosF 1 5 [] 1 = some [(0, -1)] := by
    rw [show (5 : ℕ) = 4 + 1 from rfl, side_loop_succ, if_neg (by decide), hstepP]
    exact side_loop_of_le (by decide) 4 2
  have hNeg : side_loop ((0 : ℤ), (0 : ℤ)) cexNegF 1 5 [] 1 = some [(0, 1)] := by
    rw [show (5 : ℕ) = 4 + 1 from rfl, side_loop_succ, if_neg (by decide), hstepN]
    exact side_loop_of_le (by decide) 4 2
  rw [hgen, cex_center, hPos, hNeg]
  rfl

/-- Counterexample to claim C4 as stated: at landmark `(0.7, 0)` with
direction `(0, 50)` and `k = 1`, the generated center entry is the truncated
coordinate `(0, 0)`, not the claimed rounded landmark coordinate `(1, 0)`. -/
theorem c4_counterexample :
    generate_points (7 / 10, 0) (0, 50) 1 5 = some [(0, 1), (0, 0), (0, -1)] ∧
    (generate_points (7 / 10, 0) (0, 50) 1 5).map (fun l => l.get? 1)
      = some (some (0, 0)) ∧
    (round ((7 : ℚ) / 10), round ((0 : ℚ))) = ((1 : ℤ), (0 : ℤ)) ∧
    ((0 : ℤ), (0 : ℤ)) ≠ ((1 : ℤ), (0 : ℤ)) := by
  refine ⟨gen_run_concrete, ?_, ?_, by decide⟩
  · rw [gen_run_concrete]
    rfl
  · rw [Prod.mk.injEq]
    constructor
    · norm_num [round_eq]
    · norm_num [round_eq]

/-- Witness for C4 (amended): a concrete landmark and direction. -/
theorem c4_generate_points_shape_witness :
    ∃ (fuel : ℕ) (neg pos : List (ℤ × ℤ)),
      generate_points (7 / 10, 0) (0, 50) 1 fuel
        = some (neg.reverse ++ [(pyInt ((7 : ℚ) / 10), pyInt ((0 : ℚ)))] ++ pos) ∧
      neg.length = 1 ∧ pos.length = 1 ∧
      (neg.reverse ++ [(pyInt ((7 : ℚ) / 10), pyInt ((0 : ℚ)))] ++ pos).length
        = 2 * 1 + 1 ∧
      (neg.reverse ++ [(pyInt ((7 : ℚ) / 10), pyInt ((0 : ℚ)))] ++ pos).get? 1
        = some (pyInt ((7 : ℚ) / 10), pyInt ((0 : ℚ))) ∧
      neg.Nodup ∧ pos.Nodup ∧
      (pyInt ((7 : ℚ) / 10), pyInt ((0 : ℚ))) ∉ neg ∧
      (pyInt ((7 : ℚ) / 10), pyInt ((0 : ℚ))) ∉ pos :=
  c4_generate_points_shape (7 / 10, 0) (0, 50) 1 (by decide)

end ASM
